import Mathlib

/-!
# ATtiny85 HID rotary knob: a shallow embedding of `src/main.c`

The firmware keeps all of its state in a handful of global and function-static
bytes.  Here these are gathered in one record, `State`, and every C function
becomes a function on that record.  Bytes (`uchar`, `uint8_t`) are natural
numbers, with `% 256` written wherever the C code does 8-bit arithmetic; the
16-bit `int` of the AVR is an `Int` with `wrap16` wherever the C code can
overflow.
-/

namespace Knob

/-! ## Constants of `main.c` -/

/-- Macro `F_CPU`, defined as `16500000`. -/
def F_CPU : Nat := 16500000

/-- Macro `ENC_SW`, defined as `0b00000001`. -/
def ENC_SW : Nat := 0x01

/-- Macro `ENC_B`, defined as `0b00000100`. -/
def ENC_B : Nat := 0x04

/-- Macro `ENC_A`, defined as `0b00100000`. -/
def ENC_A : Nat := 0x20

/-- Macro `VOLUMEMUTE`, defined as `0xE2`. -/
def VOLUMEMUTE : Nat := 0xE2

/-- Macro `VOLUMEUP`, defined as `0xE9`. -/
def VOLUMEUP : Nat := 0xE9

/-- Macro `VOLUMEDOWN`, defined as `0xEA`. -/
def VOLUMEDOWN : Nat := 0xEA

/-- Macro `DEBOUNCE_THRESHOLD`, defined as `50`. -/
def DEBOUNCE_THRESHOLD : Nat := 50

/-! ## Data model -/

/-- The three reads of `PINB` made by one call of `checkEncoder`, each already
masked: `encA` is `(PINB & ENC_A) != 0` at the first read, `encB` is
`(PINB & ENC_B) != 0` at the second, `encSW` is `(PINB & ENC_SW) != 0` at the
third.  The switch is active low: it is pressed when `encSW` is `false`. -/
structure PinSample where
  encA : Bool
  encB : Bool
  encSW : Bool
deriving DecidableEq, Repr

/-- A single value of `PINB` read three times, as happens when the pins do not
move during the call. -/
def PinSample.ofPINB (pinb : Nat) : PinSample :=
  { encA := pinb &&& ENC_A != 0
    encB := pinb &&& ENC_B != 0
    encSW := pinb &&& ENC_SW != 0 }

/-- The array `static uchar reportBuffer[3]`: report ID followed by the 16-bit usage code. -/
structure ReportBuffer where
  byte0 : Nat
  byte1 : Nat
  byte2 : Nat
deriving DecidableEq, Repr

/-- The bytes of the buffer in memory order. -/
def ReportBuffer.toList (rb : ReportBuffer) : List Nat :=
  [rb.byte0, rb.byte1, rb.byte2]

/-- What the driver's `usbMsgPtr` points at. -/
inductive MsgPtr where
  | unset
  | reportBuffer
  | idleRate
deriving DecidableEq, Repr

/-- All file-scope and function-static variables of `main.c`, together with the
driver's `usbMsgPtr`, which `usbFunctionSetup` writes. -/
structure State where
  reportBuffer : ReportBuffer
  idleRate : Nat
  currentKey : Nat
  isSwitchPressed : Nat
  lastA : Nat
  debounceCount : Nat
  usbMsgPtr : MsgPtr
deriving DecidableEq, Repr

/-- The values given by the initialisers: `reportBuffer = {1, 0, 0}`,
`isSwitchPressed = 0`, `lastA = 1`, `debounceCount = 0`; the variables without
an initialiser are zero. -/
def State.init : State :=
  { reportBuffer := ⟨1, 0, 0⟩
    idleRate := 0
    currentKey := 0
    isSwitchPressed := 0
    lastA := 1
    debounceCount := 0
    usbMsgPtr := MsgPtr.unset }

/-! ## `checkEncoder` -/

/-- One call of `static void checkEncoder(void)`. -/
def checkEncoder (s : State) (p : PinSample) : State :=
  -- currentKey = 0;
  let currentKey : Nat := 0
  -- uint8_t a = (PINB & ENC_A) ? 1 : 0;
  let a : Nat := if p.encA then 1 else 0
  -- if (lastA && !a) { if (PINB & ENC_B) currentKey = VOLUMEUP; else currentKey = VOLUMEDOWN; }
  let currentKey : Nat :=
    if s.lastA ≠ 0 ∧ a = 0 then
      (if p.encB then VOLUMEUP else VOLUMEDOWN)
    else currentKey
  -- lastA = a;
  let lastA := a
  -- if (!(PINB & ENC_SW)) {
  if p.encSW = false then
    -- if (debounceCount < DEBOUNCE_THRESHOLD) debounceCount++;
    let debounceCount :=
      if s.debounceCount < DEBOUNCE_THRESHOLD then (s.debounceCount + 1) % 256
      else s.debounceCount
    -- if (debounceCount == DEBOUNCE_THRESHOLD && !isSwitchPressed) {...}
    if debounceCount = DEBOUNCE_THRESHOLD ∧ s.isSwitchPressed = 0 then
      { s with currentKey := VOLUMEMUTE, isSwitchPressed := 1,
               lastA := lastA, debounceCount := debounceCount }
    else
      { s with currentKey := currentKey, lastA := lastA, debounceCount := debounceCount }
  else
    -- if (debounceCount > 0) debounceCount--;
    let debounceCount :=
      if s.debounceCount > 0 then (s.debounceCount + 255) % 256 else s.debounceCount
    -- if (debounceCount == 0) isSwitchPressed = 0;
    if debounceCount = 0 then
      { s with currentKey := currentKey, isSwitchPressed := 0,
               lastA := lastA, debounceCount := debounceCount }
    else
      { s with currentKey := currentKey, lastA := lastA, debounceCount := debounceCount }

/-- The state after feeding a list of samples to successive calls. -/
def runEncoder (s : State) : List PinSample → State
  | [] => s
  | p :: ps => runEncoder (checkEncoder s p) ps

/-- The state left by each call, in order. -/
def encoderTrace (s : State) : List PinSample → List State
  | [] => []
  | p :: ps => checkEncoder s p :: encoderTrace (checkEncoder s p) ps

/-- The value of `currentKey` left by each call, in order. -/
def encoderEvents (s : State) (ps : List PinSample) : List Nat :=
  (encoderTrace s ps).map State.currentKey

/-- How many calls of a run left `VOLUMEMUTE` in `currentKey`. -/
def muteCount (events : List Nat) : Nat :=
  events.count VOLUMEMUTE

/-- The condition under which a call of `checkEncoder` takes the branch that
writes `VOLUMEMUTE`: the switch reads pressed, the counter after its increment
equals the threshold, and the latch is clear. -/
def muteFires (s : State) (p : PinSample) : Prop :=
  p.encSW = false ∧ s.isSwitchPressed = 0 ∧
    (if s.debounceCount < DEBOUNCE_THRESHOLD then (s.debounceCount + 1) % 256
     else s.debounceCount) = DEBOUNCE_THRESHOLD

instance (s : State) (p : PinSample) : Decidable (muteFires s p) := by
  unfold muteFires; infer_instance

/-- The rotation event the specification expects from one sample, given the
phase-A level of the previous sample: `VOLUMEUP` on a falling edge with phase B
high, `VOLUMEDOWN` on a falling edge with phase B low, and no event otherwise. -/
def rotationEvent (prevA : Bool) (p : PinSample) : Nat :=
  if prevA = true ∧ p.encA = false then
    (if p.encB = true then VOLUMEUP else VOLUMEDOWN)
  else 0

/-- The relation between counter and latch that holds in every state reached
from the initial one: the counter does not exceed the threshold, the latch is
0 or 1, a set latch goes with a counter of at least 1, and a counter at the
threshold goes with a set latch. -/
def DebounceInv (s : State) : Prop :=
  s.debounceCount ≤ DEBOUNCE_THRESHOLD ∧
  (s.isSwitchPressed = 0 ∨ s.isSwitchPressed = 1) ∧
  (s.isSwitchPressed = 1 → 1 ≤ s.debounceCount) ∧
  (s.debounceCount = DEBOUNCE_THRESHOLD → s.isSwitchPressed = 1)

/-- After the samples `pre`, run from the initial state, the counter "has been
0 since the previous Mute, or no Mute has fired yet": `pre` splits into a part
after which `debounceCount` is 0 and a rest during which no call leaves
`VOLUMEMUTE` in `currentKey`. -/
def armedAfter (pre : List PinSample) : Prop :=
  ∃ p1 p2, pre = p1 ++ p2 ∧ (runEncoder State.init p1).debounceCount = 0 ∧
    ∀ e ∈ encoderEvents (runEncoder State.init p1) p2, e ≠ VOLUMEMUTE

/-- A sample with both phases high and the switch pressed (pin low). -/
def pressedSample : PinSample :=
  { encA := true, encB := true, encSW := false }

/-- A sample with both phases high and the switch released (pin high). -/
def releasedSample : PinSample :=
  { encA := true, encB := true, encSW := true }

/-- Forty-nine pressed samples and then one released sample. -/
def bouncePrefix : List PinSample :=
  List.replicate 49 pressedSample ++ [releasedSample]

/-- Fifty pressed, fifty released and fifty pressed samples. -/
def twoPresses : List PinSample :=
  List.replicate 50 pressedSample ++ List.replicate 50 releasedSample ++
    List.replicate 50 pressedSample

/-! ## The main loop -/

/-- The `if` statement that ends the body of the main loop, run on the state
left by `checkEncoder`; `ready` is the value of `usbInterruptIsReady()`.  The
second component is the byte string handed to `usbSetInterrupt`, or `none` when
`usbSetInterrupt` is not called. -/
def reportStep (s : State) (ready : Bool) : State × Option (List Nat) :=
  -- if (usbInterruptIsReady() && (reportBuffer[1] != currentKey)) {
  if ready = true ∧ s.reportBuffer.byte1 ≠ s.currentKey then
    -- reportBuffer[1] = currentKey;
    let s' := { s with reportBuffer := { s.reportBuffer with byte1 := s.currentKey } }
    -- usbSetInterrupt(reportBuffer, sizeof(reportBuffer));
    (s', some s'.reportBuffer.toList)
  else
    (s, none)

/-- One iteration of `while (1)` in `main`: `checkEncoder()` followed by the
conditional transmission.  `wdt_reset()` touches no variable of the program;
`usbPoll()` belongs to the driver, and the callbacks it may invoke are separate
steps of the model. -/
def mainLoopIteration (s : State) (p : PinSample) (ready : Bool) : State × Option (List Nat) :=
  reportStep (checkEncoder s p) ready

/-! ## `calibrateOscillator` -/

/-- The value of a C expression of type `int` on the AVR (16 bits, two's
complement) whose mathematical value is `i`. -/
def wrap16 (i : Int) : Int :=
  (i + 32768) % 65536 - 32768

/-- The local `int targetValue = (unsigned)(1499 * (double)F_CPU / 10.5e6 + 0.5)`:
the quotient `1499 * F_CPU / 10500000` rounded to the nearest integer. -/
def targetValue : Int :=
  ((2 * 1499 * F_CPU + 10500000) / 21000000 : Nat)

/-- What the binary-search loop leaves behind: `trialValue`, the last value of
`x`, and the trims at which `usbMeasureFrameLength()` has been called, oldest
first. -/
structure SearchResult where
  trialValue : Nat
  x : Int
  measured : List Nat
deriving DecidableEq, Repr

/-- What `calibrateOscillator` leaves behind: the final content of `OSCCAL` and
the trims at which `usbMeasureFrameLength()` has been called, oldest first. -/
structure CalResult where
  OSCCAL : Nat
  measured : List Nat
deriving DecidableEq, Repr

/-- The loop `do { ... } while (step > 0)` of `calibrateOscillator`.  The
driver's `usbMeasureFrameLength()` is the parameter `f`: the frame length
measured while `OSCCAL` holds the given trim.  The assignment to the 16-bit
`int x` is `wrap16`, so a length of 32768 or more reads negative.  One unit of
fuel is spent per pass through the body. -/
def binarySearchLoop (f : Nat → Int) :
    Nat → Nat → Nat → List Nat → Option SearchResult
  | 0, _, _, _ => none
  | fuel + 1, step, trialValue, measured =>
    -- OSCCAL = trialValue + step;
    let osccal := (trialValue + step) % 256
    -- x = usbMeasureFrameLength();
    let x := wrap16 (f osccal)
    -- if (x < targetValue) trialValue += step;
    let trialValue := if x < targetValue then (trialValue + step) % 256 else trialValue
    -- step >>= 1;
    let step := step / 2
    -- while (step > 0)
    if step > 0 then binarySearchLoop f fuel step trialValue (measured ++ [osccal])
    else some ⟨trialValue, x, measured ++ [osccal]⟩

/-- The loop `for (OSCCAL = trialValue - 1; OSCCAL <= trialValue + 1; OSCCAL++)`
from the point where its condition is tested.  `OSCCAL` is an 8-bit register,
`trialValue + 1` is computed in `int`.  One unit of fuel is spent per test of
the condition.  The result is the final `optimumValue` and the measurement log. -/
def neighbourhoodLoop (f : Nat → Int) (trialValue : Nat) :
    Nat → Nat → Nat → Int → List Nat → Option (Nat × List Nat)
  | 0, _, _, _, _ => none
  | fuel + 1, osccal, optimumValue, optimumDev, measured =>
    -- OSCCAL <= trialValue + 1
    if osccal ≤ trialValue + 1 then
      -- x = usbMeasureFrameLength() - targetValue;
      let x := wrap16 (f osccal - targetValue)
      -- if (x < 0) x = -x;
      let x := if x < 0 then wrap16 (-x) else x
      -- if (x < optimumDev) { optimumDev = x; optimumValue = OSCCAL; }
      let optimumDev' := if x < optimumDev then x else optimumDev
      let optimumValue' := if x < optimumDev then osccal else optimumValue
      -- OSCCAL++
      neighbourhoodLoop f trialValue fuel ((osccal + 1) % 256) optimumValue' optimumDev'
        (measured ++ [osccal])
    else
      some (optimumValue, measured)

/-- The function `void calibrateOscillator(void)`, with `fuel` bounding the
number of passes through each of its two loops; `none` means that the fuel ran
out before the function returned. -/
def calibrateOscillator (f : Nat → Int) (fuel : Nat) : Option CalResult :=
  -- uchar step = 128; uchar trialValue = 0; do { ... } while (step > 0);
  match binarySearchLoop f fuel 128 0 [] with
  | none => none
  | some r =>
    -- optimumValue = trialValue; optimumDev = x;
    -- for (OSCCAL = trialValue - 1; ...; ...)
    match neighbourhoodLoop f r.trialValue fuel ((r.trialValue + 255) % 256)
        r.trialValue r.x r.measured with
    | none => none
    -- OSCCAL = optimumValue;
    | some (optimumValue, measured) => some ⟨optimumValue, measured⟩

/-- A frame-length response that stays below the target at every trim. -/
def alwaysShort : Nat → Int := fun _ => 0

/-- A frame-length response that equals the target at every trim. -/
def alwaysOnTarget : Nat → Int := fun _ => targetValue

/-- A non-decreasing response: far below the target up to trim 101, ten above
the target from trim 102 on. -/
def stepResponse : Nat → Int := fun t => if t ≤ 101 then 5 else 2366

/-- A non-decreasing response that leaves the range of a 16-bit `int`: 2000 up
to trim 100, 40000 from trim 101 on. -/
def wideResponse : Nat → Int := fun t => if t ≤ 100 then 2000 else 40000

/-! ## `usbFunctionSetup` -/

/-- The constants of the driver header `usbdrv.h` that `usbFunctionSetup`
uses.  The header is not among the sources, so the values are a parameter. -/
structure UsbConsts where
  USBRQ_TYPE_MASK : Nat
  USBRQ_TYPE_CLASS : Nat
  USBRQ_HID_GET_REPORT : Nat
  USBRQ_HID_GET_IDLE : Nat
  USBRQ_HID_SET_IDLE : Nat
deriving DecidableEq, Repr

/-- The three HID request codes are pairwise different. -/
def UsbConsts.distinct (c : UsbConsts) : Prop :=
  c.USBRQ_HID_GET_REPORT ≠ c.USBRQ_HID_GET_IDLE ∧
  c.USBRQ_HID_GET_REPORT ≠ c.USBRQ_HID_SET_IDLE ∧
  c.USBRQ_HID_GET_IDLE ≠ c.USBRQ_HID_SET_IDLE

instance (c : UsbConsts) : Decidable c.distinct := by
  unfold UsbConsts.distinct; infer_instance

/-- The values of the USB and HID specifications: type mask `0x60`, class type
`0x20`, `GET_REPORT = 0x01`, `GET_IDLE = 0x02`, `SET_IDLE = 0x0a`. -/
def usbdrvConsts : UsbConsts :=
  { USBRQ_TYPE_MASK := 0x60
    USBRQ_TYPE_CLASS := 0x20
    USBRQ_HID_GET_REPORT := 0x01
    USBRQ_HID_GET_IDLE := 0x02
    USBRQ_HID_SET_IDLE := 0x0a }

/-- The argument `uchar data[8]` of `usbFunctionSetup`, read through
`usbRequest_t *rq = (void *)data`: the eight bytes in memory order. -/
structure SetupPacket where
  bmRequestType : Nat
  bRequest : Nat
  wValue0 : Nat
  wValue1 : Nat
  wIndex0 : Nat
  wIndex1 : Nat
  wLength0 : Nat
  wLength1 : Nat
deriving DecidableEq, Repr

/-- The test `(rq->bmRequestType & USBRQ_TYPE_MASK) == USBRQ_TYPE_CLASS`. -/
def SetupPacket.isClass (c : UsbConsts) (rq : SetupPacket) : Prop :=
  rq.bmRequestType &&& c.USBRQ_TYPE_MASK = c.USBRQ_TYPE_CLASS

instance (c : UsbConsts) (rq : SetupPacket) : Decidable (rq.isClass c) := by
  unfold SetupPacket.isClass; infer_instance

/-- The function `uchar usbFunctionSetup(uchar data[8])`: the state it leaves
and the value it returns. -/
def usbFunctionSetup (c : UsbConsts) (s : State) (rq : SetupPacket) : State × Nat :=
  -- usbMsgPtr = reportBuffer;
  let s := { s with usbMsgPtr := MsgPtr.reportBuffer }
  -- if ((rq->bmRequestType & USBRQ_TYPE_MASK) == USBRQ_TYPE_CLASS) {
  if rq.bmRequestType &&& c.USBRQ_TYPE_MASK = c.USBRQ_TYPE_CLASS then
    -- if (rq->bRequest == USBRQ_HID_GET_REPORT) return sizeof(reportBuffer);
    if rq.bRequest = c.USBRQ_HID_GET_REPORT then
      (s, 3)
    -- else if (rq->bRequest == USBRQ_HID_GET_IDLE) { usbMsgPtr = &idleRate; return 1; }
    else if rq.bRequest = c.USBRQ_HID_GET_IDLE then
      ({ s with usbMsgPtr := MsgPtr.idleRate }, 1)
    -- else if (rq->bRequest == USBRQ_HID_SET_IDLE) idleRate = rq->wValue.bytes[1];
    else if rq.bRequest = c.USBRQ_HID_SET_IDLE then
      ({ s with idleRate := rq.wValue1 }, 0)
    else
      (s, 0)
  else
    -- return 0;
    (s, 0)

/-- The bytes the driver sends after `usbFunctionSetup` returned `len`: `len`
bytes starting where `usbMsgPtr` points. -/
def usbMsgBytes (s : State) (len : Nat) : List Nat :=
  match s.usbMsgPtr with
  | MsgPtr.unset => []
  | MsgPtr.reportBuffer => s.reportBuffer.toList.take len
  | MsgPtr.idleRate => [s.idleRate].take len

/-! ## Runs of the main loop and of the whole program -/

/-- The pair left by each iteration of the main loop, in order: the state at
the end of the iteration and what the iteration handed to `usbSetInterrupt`. -/
def mainLoopTrace (s : State) : List (PinSample × Bool) → List (State × Option (List Nat))
  | [] => []
  | (p, ready) :: rest =>
    mainLoopIteration s p ready :: mainLoopTrace (mainLoopIteration s p ready).1 rest

/-- The state after a list of iterations of the main loop. -/
def runMainLoop (s : State) : List (PinSample × Bool) → State
  | [] => s
  | (p, ready) :: rest => runMainLoop (mainLoopIteration s p ready).1 rest

/-- The usage codes (`reportBuffer[1]` of the bytes handed to
`usbSetInterrupt`) of the reports transmitted during a run, in order. -/
def transmittedCodes (trace : List (State × Option (List Nat))) : List Nat :=
  trace.filterMap (fun r => r.2.map (fun bytes => bytes.getD 1 0))

/-- One step of the program as seen from outside: an iteration of the main
loop with its pin sample and the answer of `usbInterruptIsReady()`, or a
control request passed to `usbFunctionSetup` from inside `usbPoll()`. -/
inductive Step where
  | loop (p : PinSample) (ready : Bool)
  | setup (rq : SetupPacket)
deriving DecidableEq, Repr

/-- The state after one step, and the report handed to `usbSetInterrupt`, if any. -/
def step (c : UsbConsts) (s : State) : Step → State × Option (List Nat)
  | Step.loop p ready => mainLoopIteration s p ready
  | Step.setup rq => ((usbFunctionSetup c s rq).1, none)

/-- The state after a list of steps. -/
def runSteps (c : UsbConsts) (s : State) : List Step → State
  | [] => s
  | x :: xs => runSteps c (step c s x).1 xs

/-- The pair left by each step of a run, in order. -/
def stepTrace (c : UsbConsts) (s : State) : List Step → List (State × Option (List Nat))
  | [] => []
  | x :: xs => step c s x :: stepTrace c (step c s x).1 xs

/-- A sequence of samples contains no falling edge of phase A, given the phase
A level before its first sample. -/
def noFallingEdge (prevA : Bool) : List PinSample → Prop
  | [] => True
  | p :: ps => ¬ (prevA = true ∧ p.encA = false) ∧ noFallingEdge p.encA ps

/-- One step of the binary search as the specification words it: measure at
`currentBest + step` and keep the step only if the measured length is below the
target.  The accumulator is `currentBest` and the trims measured so far. -/
def searchStep (f : Nat → Int) (acc : Nat × List Nat) (step : Nat) : Nat × List Nat :=
  (if f (acc.1 + step) < targetValue then acc.1 + step else acc.1, acc.2 ++ [acc.1 + step])

/-- The binary search as the specification words it: `searchStep` for each of
the given steps in turn, starting from trim 0.  The result is the final
`currentBest` and the trims measured, oldest first. -/
def searchOverSteps (f : Nat → Int) (steps : List Nat) : Nat × List Nat :=
  steps.foldl (searchStep f) (0, [])

/-- The steps `2 ^ k`, `2 ^ (k - 1)`, ..., 2, 1. -/
def halvings : Nat → List Nat
  | 0 => [1]
  | k + 1 => 2 ^ (k + 1) :: halvings k

/-- A class-type `SET_IDLE` request whose `wValue` high byte is 7. -/
def setIdleSeven : SetupPacket :=
  { bmRequestType := 0x21, bRequest := 0x0a, wValue0 := 0, wValue1 := 7,
    wIndex0 := 0, wIndex1 := 0, wLength0 := 0, wLength1 := 0 }

/-- A class-type `GET_IDLE` request. -/
def getIdle : SetupPacket :=
  { bmRequestType := 0xa1, bRequest := 0x02, wValue0 := 0, wValue1 := 0,
    wIndex0 := 0, wIndex1 := 0, wLength0 := 1, wLength1 := 0 }

/-- A class-type `GET_REPORT` request. -/
def getReport : SetupPacket :=
  { bmRequestType := 0xa1, bRequest := 0x01, wValue0 := 1, wValue1 := 1,
    wIndex0 := 0, wIndex1 := 0, wLength0 := 3, wLength1 := 0 }

/-- The report buffer holds the report ID 1, a zero high byte, and one of the
four usage codes the program produces. -/
def ReportInv (s : State) : Prop :=
  s.reportBuffer.byte0 = 1 ∧ s.reportBuffer.byte2 = 0 ∧
  (s.reportBuffer.byte1 = 0 ∨ s.reportBuffer.byte1 = VOLUMEMUTE ∨
    s.reportBuffer.byte1 = VOLUMEUP ∨ s.reportBuffer.byte1 = VOLUMEDOWN)

/-- What holds at the end of every iteration of a main loop whose driver is
always ready: the buffer carries the event of the iteration, a Mute goes with a
set latch, and a rotation event goes with `lastA` low. -/
def SyncInv (s : State) : Prop :=
  s.reportBuffer.byte0 = 1 ∧ s.reportBuffer.byte2 = 0 ∧
  s.reportBuffer.byte1 = s.currentKey ∧
  (s.currentKey = VOLUMEMUTE → s.isSwitchPressed ≠ 0) ∧
  (s.currentKey = VOLUMEUP ∨ s.currentKey = VOLUMEDOWN → s.lastA = 0)

/-- Phase A low, phase B high, switch released: from the initial state, a
falling edge on phase A. -/
def edgeSample : PinSample :=
  { encA := false, encB := true, encSW := true }

/-- Phase A low, phase B high, switch released, five times: no further edge. -/
def quietTail : List PinSample :=
  List.replicate 5 edgeSample

/-- A falling edge with the driver ready, a `GET_REPORT` request, and an idle
iteration. -/
def mixedSteps : List Step :=
  [Step.loop edgeSample true, Step.setup getReport, Step.loop releasedSample true]

/-! ## A state and a sample where rotation and mute coincide -/

/-- A detector state one pressed sample short of the threshold, with `lastA` high. -/
def edgeWithMuteState : State :=
  { State.init with lastA := 1, debounceCount := 49, isSwitchPressed := 0 }

/-- Phase A low, phase B high, switch pressed. -/
def edgeWithMuteSample : PinSample :=
  { encA := false, encB := true, encSW := false }

end Knob

namespace Knob

/-! ## Single-call facts about `checkEncoder` -/

theorem checkEncoder_currentKey_mute_iff (s : State) (p : PinSample) :
    (checkEncoder s p).currentKey = VOLUMEMUTE ↔ muteFires s p := by
  unfold checkEncoder muteFires
  dsimp only
  repeat' split
  all_goals (try simp_all [VOLUMEUP, VOLUMEDOWN, VOLUMEMUTE, DEBOUNCE_THRESHOLD])
  all_goals (try omega)

theorem checkEncoder_lastA (s : State) (p : PinSample) :
    (checkEncoder s p).lastA = if p.encA then 1 else 0 := by
  unfold checkEncoder
  dsimp only
  repeat' split
  all_goals (try simp_all [VOLUMEUP, VOLUMEDOWN, VOLUMEMUTE, DEBOUNCE_THRESHOLD])

theorem checkEncoder_pressed_debounceCount (s : State) (p : PinSample) (hp : p.encSW = false) :
    (checkEncoder s p).debounceCount =
      if s.debounceCount < DEBOUNCE_THRESHOLD then (s.debounceCount + 1) % 256
      else s.debounceCount := by
  unfold checkEncoder
  dsimp only
  repeat' split
  all_goals (try simp_all [VOLUMEUP, VOLUMEDOWN, VOLUMEMUTE, DEBOUNCE_THRESHOLD])

theorem checkEncoder_released_debounceCount (s : State) (p : PinSample) (hp : p.encSW = true) :
    (checkEncoder s p).debounceCount =
      if s.debounceCount > 0 then (s.debounceCount + 255) % 256 else s.debounceCount := by
  unfold checkEncoder
  dsimp only
  repeat' split
  all_goals (try simp_all [VOLUMEUP, VOLUMEDOWN, VOLUMEMUTE, DEBOUNCE_THRESHOLD])

theorem checkEncoder_pressed_isSwitchPressed (s : State) (p : PinSample) (hp : p.encSW = false) :
    (checkEncoder s p).isSwitchPressed = if muteFires s p then 1 else s.isSwitchPressed := by
  unfold checkEncoder muteFires
  dsimp only
  repeat' split
  all_goals (try simp_all [VOLUMEUP, VOLUMEDOWN, VOLUMEMUTE, DEBOUNCE_THRESHOLD])

theorem checkEncoder_released_isSwitchPressed (s : State) (p : PinSample) (hp : p.encSW = true) :
    (checkEncoder s p).isSwitchPressed =
      if (checkEncoder s p).debounceCount = 0 then 0 else s.isSwitchPressed := by
  unfold checkEncoder
  dsimp only
  repeat' split
  all_goals (try simp_all [VOLUMEUP, VOLUMEDOWN, VOLUMEMUTE, DEBOUNCE_THRESHOLD])

theorem checkEncoder_released_currentKey (s : State) (p : PinSample) (hp : p.encSW = true) :
    (checkEncoder s p).currentKey =
      if s.lastA ≠ 0 ∧ p.encA = false then (if p.encB then VOLUMEUP else VOLUMEDOWN) else 0 := by
  unfold checkEncoder
  dsimp only
  repeat' split
  all_goals (try simp_all [VOLUMEUP, VOLUMEDOWN, VOLUMEMUTE, DEBOUNCE_THRESHOLD])

theorem checkEncoder_reportBuffer (s : State) (p : PinSample) :
    (checkEncoder s p).reportBuffer = s.reportBuffer := by
  unfold checkEncoder
  dsimp only
  repeat' split
  all_goals (try simp_all [VOLUMEUP, VOLUMEDOWN, VOLUMEMUTE, DEBOUNCE_THRESHOLD])

theorem muteFires_iff (s : State) (p : PinSample) :
    muteFires s p ↔
      p.encSW = false ∧ s.isSwitchPressed = 0 ∧ (s.debounceCount = 49 ∨ s.debounceCount = 50) := by
  unfold muteFires
  repeat' split
  all_goals (try simp_all [VOLUMEUP, VOLUMEDOWN, VOLUMEMUTE, DEBOUNCE_THRESHOLD])
  all_goals (try omega)

/-! ## Traces -/

@[simp] theorem encoderTrace_nil (s : State) : encoderTrace s [] = [] := rfl

@[simp] theorem encoderTrace_cons (s : State) (p : PinSample) (ps : List PinSample) :
    encoderTrace s (p :: ps) = checkEncoder s p :: encoderTrace (checkEncoder s p) ps := rfl

@[simp] theorem encoderEvents_nil (s : State) : encoderEvents s [] = [] := rfl

@[simp] theorem encoderEvents_cons (s : State) (p : PinSample) (ps : List PinSample) :
    encoderEvents s (p :: ps) =
      (checkEncoder s p).currentKey :: encoderEvents (checkEncoder s p) ps := rfl

@[simp] theorem runEncoder_nil (s : State) : runEncoder s [] = s := rfl

@[simp] theorem runEncoder_cons (s : State) (p : PinSample) (ps : List PinSample) :
    runEncoder s (p :: ps) = runEncoder (checkEncoder s p) ps := rfl

theorem runEncoder_append (s : State) (ps qs : List PinSample) :
    runEncoder s (ps ++ qs) = runEncoder (runEncoder s ps) qs := by
  induction ps generalizing s with
  | nil => rfl
  | cons p ps ih => simp [ih]

theorem encoderTrace_append (s : State) (ps qs : List PinSample) :
    encoderTrace s (ps ++ qs) = encoderTrace s ps ++ encoderTrace (runEncoder s ps) qs := by
  induction ps generalizing s with
  | nil => rfl
  | cons p ps ih => simp [ih]

theorem encoderEvents_append (s : State) (ps qs : List PinSample) :
    encoderEvents s (ps ++ qs) = encoderEvents s ps ++ encoderEvents (runEncoder s ps) qs := by
  simp [encoderEvents, encoderTrace_append]

@[simp] theorem encoderTrace_length (s : State) (ps : List PinSample) :
    (encoderTrace s ps).length = ps.length := by
  induction ps generalizing s with
  | nil => rfl
  | cons p ps ih => simp [ih]

@[simp] theorem encoderEvents_length (s : State) (ps : List PinSample) :
    (encoderEvents s ps).length = ps.length := by
  simp [encoderEvents]

/-! ## Runs of pressed and of released samples -/

theorem released_events_aux (ps : List PinSample) :
    ∀ s : State, (∀ p ∈ ps, p.encSW = true) →
      (∀ p, ps[0]? = some p →
        (encoderEvents s ps)[0]? = some (rotationEvent (decide (s.lastA ≠ 0)) p)) ∧
      (∀ j q p, ps[j]? = some q → ps[j + 1]? = some p →
        (encoderEvents s ps)[j + 1]? = some (rotationEvent q.encA p)) := by
  induction ps with
  | nil => intro s _; simp
  | cons x xs ih =>
    intro s hrel
    have hx : x.encSW = true := hrel x (List.mem_cons_self _ _)
    have hxs : ∀ p ∈ xs, p.encSW = true := fun p hp => hrel p (List.mem_cons_of_mem _ hp)
    obtain ⟨ih0, ihs⟩ := ih (checkEncoder s x) hxs
    refine ⟨?_, ?_⟩
    · intro p hp
      simp only [List.getElem?_cons_zero, Option.some.injEq] at hp
      subst hp
      simp only [encoderEvents_cons, List.getElem?_cons_zero, Option.some.injEq]
      rw [checkEncoder_released_currentKey s x hx]
      unfold rotationEvent
      simp
    · intro j q p hq hp
      simp only [encoderEvents_cons, List.getElem?_cons_succ]
      simp only [List.getElem?_cons_succ] at hp
      cases j with
      | zero =>
        simp only [List.getElem?_cons_zero, Option.some.injEq] at hq
        subst hq
        rw [ih0 p hp, checkEncoder_lastA]
        cases x.encA <;> simp
      | succ j =>
        simp only [List.getElem?_cons_succ] at hq
        exact ihs j q p hq hp

theorem pressed_latched_no_mute (run : List PinSample) :
    ∀ s : State, (∀ p ∈ run, p.encSW = false) → s.isSwitchPressed ≠ 0 →
      (∀ t ∈ encoderTrace s run, t.currentKey ≠ VOLUMEMUTE ∧ t.isSwitchPressed = s.isSwitchPressed) := by
  induction run with
  | nil => intro s _ _ t ht; simp at ht
  | cons x xs ih =>
    intro s hrun hs t ht
    have hx : x.encSW = false := hrun x (List.mem_cons_self _ _)
    have hxs : ∀ p ∈ xs, p.encSW = false := fun p hp => hrun p (List.mem_cons_of_mem _ hp)
    have hnf : ¬ muteFires s x := by
      rw [muteFires_iff]; tauto
    have hkey : (checkEncoder s x).currentKey ≠ VOLUMEMUTE := by
      rw [Ne, checkEncoder_currentKey_mute_iff]; exact hnf
    have hisp : (checkEncoder s x).isSwitchPressed = s.isSwitchPressed := by
      rw [checkEncoder_pressed_isSwitchPressed s x hx, if_neg hnf]
    simp only [encoderTrace_cons, List.mem_cons] at ht
    rcases ht with rfl | ht
    · exact ⟨hkey, hisp⟩
    · have := ih (checkEncoder s x) hxs (by rw [hisp]; exact hs) t ht
      rw [hisp] at this
      exact this

theorem pressed_debounceCount (run : List PinSample) :
    ∀ s : State, (∀ p ∈ run, p.encSW = false) → s.debounceCount ≤ 50 →
      (runEncoder s run).debounceCount = min 50 (s.debounceCount + run.length) := by
  induction run with
  | nil => intro s _ h; simp; omega
  | cons x xs ih =>
    intro s hrun hs
    have hx : x.encSW = false := hrun x (List.mem_cons_self _ _)
    have hxs : ∀ p ∈ xs, p.encSW = false := fun p hp => hrun p (List.mem_cons_of_mem _ hp)
    have hdc := checkEncoder_pressed_debounceCount s x hx
    simp only [DEBOUNCE_THRESHOLD] at hdc
    have hle : (checkEncoder s x).debounceCount ≤ 50 := by
      rw [hdc]; split_ifs <;> omega
    rw [runEncoder_cons, ih (checkEncoder s x) hxs hle, hdc, List.length_cons]
    split_ifs <;> omega

theorem pressed_unlatched_mute_index (run : List PinSample) :
    ∀ s : State, (∀ p ∈ run, p.encSW = false) → s.isSwitchPressed = 0 → s.debounceCount < 50 →
      ∀ i, (encoderEvents s run)[i]? = some VOLUMEMUTE ↔ (i + s.debounceCount = 49 ∧ i < run.length) := by
  induction run with
  | nil => intro s _ _ _ i; simp
  | cons x xs ih =>
    intro s hrun hs hlt i
    have hx : x.encSW = false := hrun x (List.mem_cons_self _ _)
    have hxs : ∀ p ∈ xs, p.encSW = false := fun p hp => hrun p (List.mem_cons_of_mem _ hp)
    have hfire : muteFires s x ↔ s.debounceCount = 49 := by
      rw [muteFires_iff]
      constructor
      · rintro ⟨_, _, h | h⟩ <;> omega
      · intro h; exact ⟨hx, hs, Or.inl h⟩
    have hdc := checkEncoder_pressed_debounceCount s x hx
    simp only [DEBOUNCE_THRESHOLD, if_pos hlt] at hdc
    have hisp := checkEncoder_pressed_isSwitchPressed s x hx
    cases i with
    | zero =>
      simp only [encoderEvents_cons, List.getElem?_cons_zero, Option.some.injEq,
        checkEncoder_currentKey_mute_iff, hfire, List.length_cons]
      omega
    | succ i =>
      simp only [encoderEvents_cons, List.getElem?_cons_succ, List.length_cons]
      by_cases h49 : s.debounceCount = 49
      · have hl : (checkEncoder s x).isSwitchPressed ≠ 0 := by
          rw [hisp, if_pos (hfire.mpr h49)]; decide
        have hno := pressed_latched_no_mute xs (checkEncoder s x) hxs hl
        constructor
        · intro h
          exfalso
          have hmem : VOLUMEMUTE ∈ encoderEvents (checkEncoder s x) xs :=
            List.getElem?_mem h
          simp only [encoderEvents, List.mem_map] at hmem
          obtain ⟨t, ht, hk⟩ := hmem
          exact (hno t ht).1 hk
        · intro h; omega
      · have hl : (checkEncoder s x).isSwitchPressed = 0 := by
          rw [hisp, if_neg (fun h => h49 (hfire.mp h))]; exact hs
        have hlt2 : (checkEncoder s x).debounceCount < 50 := by rw [hdc]; omega
        rw [ih (checkEncoder s x) hxs hl hlt2 i, hdc]
        omega

theorem pressed_unlatched_isSwitchPressed (run : List PinSample) :
    ∀ s : State, (∀ p ∈ run, p.encSW = false) → s.isSwitchPressed = 0 → s.debounceCount < 50 →
      (runEncoder s run).isSwitchPressed = if 50 ≤ s.debounceCount + run.length then 1 else 0 := by
  induction run with
  | nil =>
    intro s _ hs hlt
    rw [runEncoder_nil, hs, List.length_nil, if_neg (by omega)]
  | cons x xs ih =>
    intro s hrun hs hlt
    have hx : x.encSW = false := hrun x (List.mem_cons_self _ _)
    have hxs : ∀ p ∈ xs, p.encSW = false := fun p hp => hrun p (List.mem_cons_of_mem _ hp)
    have hdc := checkEncoder_pressed_debounceCount s x hx
    simp only [DEBOUNCE_THRESHOLD, if_pos hlt] at hdc
    have hisp := checkEncoder_pressed_isSwitchPressed s x hx
    rw [runEncoder_cons, List.length_cons]
    by_cases h49 : s.debounceCount = 49
    · have hf : muteFires s x := (muteFires_iff s x).mpr ⟨hx, hs, Or.inl h49⟩
      have hl : (checkEncoder s x).isSwitchPressed = 1 := by rw [hisp, if_pos hf]
      have hno := pressed_latched_no_mute xs (checkEncoder s x) hxs (by rw [hl]; decide)
      have hfin : (runEncoder (checkEncoder s x) xs).isSwitchPressed = 1 := by
        rcases List.eq_nil_or_concat xs with hnil | ⟨ys, y, hys⟩
        · subst hnil; simpa using hl
        · have hmem : runEncoder (checkEncoder s x) xs ∈ encoderTrace (checkEncoder s x) xs := by
            subst hys
            simp [List.concat_eq_append, encoderTrace_append, runEncoder_append]
          rw [(hno _ hmem).2, hl]
      rw [hfin, if_pos (by omega)]
    · have hnf : ¬ muteFires s x := by
        rw [muteFires_iff]; omega
      have hl : (checkEncoder s x).isSwitchPressed = 0 := by
        rw [hisp, if_neg hnf]; exact hs
      have hlt2 : (checkEncoder s x).debounceCount < 50 := by rw [hdc]; omega
      rw [ih (checkEncoder s x) hxs hl hlt2, hdc]
      split_ifs <;> omega

theorem pressed_unlatched_below (run : List PinSample) :
    ∀ s : State, (∀ p ∈ run, p.encSW = false) → s.isSwitchPressed = 0 →
      s.debounceCount + run.length < 50 →
      (∀ t ∈ encoderTrace s run, t.currentKey ≠ VOLUMEMUTE ∧ t.isSwitchPressed = 0) := by
  induction run with
  | nil => intro s _ _ _ t ht; simp at ht
  | cons x xs ih =>
    intro s hrun hs hlt t ht
    have hx : x.encSW = false := hrun x (List.mem_cons_self _ _)
    have hxs : ∀ p ∈ xs, p.encSW = false := fun p hp => hrun p (List.mem_cons_of_mem _ hp)
    rw [List.length_cons] at hlt
    have hnf : ¬ muteFires s x := by
      rw [muteFires_iff]; omega
    have hdc := checkEncoder_pressed_debounceCount s x hx
    simp only [DEBOUNCE_THRESHOLD, if_pos (show s.debounceCount < 50 by omega)] at hdc
    have hisp : (checkEncoder s x).isSwitchPressed = 0 := by
      rw [checkEncoder_pressed_isSwitchPressed s x hx, if_neg hnf]; exact hs
    simp only [encoderTrace_cons, List.mem_cons] at ht
    rcases ht with rfl | ht
    · exact ⟨by rw [Ne, checkEncoder_currentKey_mute_iff]; exact hnf, hisp⟩
    · exact ih (checkEncoder s x) hxs hisp (by rw [hdc]; omega) t ht

theorem released_unlatched (run : List PinSample) :
    ∀ s : State, (∀ p ∈ run, p.encSW = true) → s.isSwitchPressed = 0 → s.debounceCount ≤ 50 →
      (∀ t ∈ encoderTrace s run, t.currentKey ≠ VOLUMEMUTE ∧ t.isSwitchPressed = 0) ∧
      (runEncoder s run).debounceCount = s.debounceCount - run.length := by
  induction run with
  | nil => intro s _ _ _; simp
  | cons x xs ih =>
    intro s hrun hs hle
    have hx : x.encSW = true := hrun x (List.mem_cons_self _ _)
    have hxs : ∀ p ∈ xs, p.encSW = true := fun p hp => hrun p (List.mem_cons_of_mem _ hp)
    have hnf : ¬ muteFires s x := by
      rw [muteFires_iff, hx]; simp
    have hdc : (checkEncoder s x).debounceCount = s.debounceCount - 1 := by
      rw [checkEncoder_released_debounceCount s x hx]; split_ifs <;> omega
    have hisp : (checkEncoder s x).isSwitchPressed = 0 := by
      rw [checkEncoder_released_isSwitchPressed s x hx]; split_ifs <;> simp [hs]
    obtain ⟨ih1, ih2⟩ := ih (checkEncoder s x) hxs hisp (by rw [hdc]; omega)
    refine ⟨?_, ?_⟩
    · intro t ht
      simp only [encoderTrace_cons, List.mem_cons] at ht
      rcases ht with rfl | ht
      · exact ⟨by rw [Ne, checkEncoder_currentKey_mute_iff]; exact hnf, hisp⟩
      · exact ih1 t ht
    · rw [runEncoder_cons, ih2, hdc, List.length_cons]; omega

/-! ## Latch and counter along arbitrary sample sequences -/

theorem checkEncoder_mute_sets_latch (s : State) (p : PinSample)
    (h : (checkEncoder s p).currentKey = VOLUMEMUTE) :
    (checkEncoder s p).isSwitchPressed = 1 := by
  rw [checkEncoder_currentKey_mute_iff] at h
  rw [checkEncoder_pressed_isSwitchPressed s p h.1, if_pos h]

theorem checkEncoder_latch_cleared (s : State) (p : PinSample)
    (h : (checkEncoder s p).isSwitchPressed = 0) :
    (checkEncoder s p).debounceCount = 0 ∨
      (s.isSwitchPressed = 0 ∧ (checkEncoder s p).currentKey ≠ VOLUMEMUTE) := by
  cases hsw : p.encSW with
  | false =>
    rw [checkEncoder_pressed_isSwitchPressed s p hsw] at h
    right
    by_cases hf : muteFires s p
    · rw [if_pos hf] at h; omega
    · rw [if_neg hf] at h
      exact ⟨h, by rw [Ne, checkEncoder_currentKey_mute_iff]; exact hf⟩
  | true =>
    rw [checkEncoder_released_isSwitchPressed s p hsw] at h
    by_cases h0 : (checkEncoder s p).debounceCount = 0
    · exact Or.inl h0
    · rw [if_neg h0] at h
      right
      refine ⟨h, ?_⟩
      rw [Ne, checkEncoder_currentKey_mute_iff, muteFires_iff, hsw]
      simp

theorem checkEncoder_stays_unlatched (s : State) (p : PinSample)
    (hs : s.isSwitchPressed = 0) (hk : (checkEncoder s p).currentKey ≠ VOLUMEMUTE) :
    (checkEncoder s p).isSwitchPressed = 0 := by
  rw [Ne, checkEncoder_currentKey_mute_iff] at hk
  cases hsw : p.encSW with
  | false => rw [checkEncoder_pressed_isSwitchPressed s p hsw, if_neg hk]; exact hs
  | true => rw [checkEncoder_released_isSwitchPressed s p hsw]; split_ifs <;> simp [hs]

theorem checkEncoder_inv (s : State) (p : PinSample) (h : DebounceInv s) :
    DebounceInv (checkEncoder s p) := by
  unfold DebounceInv at h ⊢
  obtain ⟨h1, h2, h3, h4⟩ := h
  simp only [DEBOUNCE_THRESHOLD] at h1 h4 ⊢
  cases hsw : p.encSW with
  | false =>
    have hdc := checkEncoder_pressed_debounceCount s p hsw
    have hisp := checkEncoder_pressed_isSwitchPressed s p hsw
    have hf := muteFires_iff s p
    simp only [DEBOUNCE_THRESHOLD] at hdc
    rw [hdc, hisp]
    by_cases hfire : muteFires s p
    · rw [if_pos hfire]
      have := hf.mp hfire
      split_ifs <;> omega
    · rw [if_neg hfire]
      have hn : ¬ (s.isSwitchPressed = 0 ∧ (s.debounceCount = 49 ∨ s.debounceCount = 50)) :=
        fun hh => hfire (hf.mpr ⟨hsw, hh⟩)
      split_ifs <;> omega
  | true =>
    have hdc := checkEncoder_released_debounceCount s p hsw
    have hisp := checkEncoder_released_isSwitchPressed s p hsw
    rw [hisp]
    by_cases h0 : (checkEncoder s p).debounceCount = 0
    · rw [if_pos h0, h0]; omega
    · rw [if_neg h0]
      rw [hdc] at h0 ⊢
      split_ifs at h0 ⊢ <;> omega

theorem DebounceInv_init : DebounceInv State.init := by
  unfold DebounceInv State.init DEBOUNCE_THRESHOLD
  simp

theorem runEncoder_inv (ps : List PinSample) :
    ∀ s : State, DebounceInv s → DebounceInv (runEncoder s ps) := by
  induction ps with
  | nil => intro s h; exact h
  | cons x xs ih => intro s h; exact ih _ (checkEncoder_inv s x h)

theorem no_mute_stays_unlatched (ps : List PinSample) :
    ∀ s : State, s.isSwitchPressed = 0 → (∀ e ∈ encoderEvents s ps, e ≠ VOLUMEMUTE) →
      (runEncoder s ps).isSwitchPressed = 0 := by
  induction ps with
  | nil => intro s h _; exact h
  | cons x xs ih =>
    intro s hs he
    simp only [encoderEvents_cons, List.mem_cons, forall_eq_or_imp] at he
    exact ih _ (checkEncoder_stays_unlatched s x hs he.1) he.2

theorem unlatched_iff_armed (pre : List PinSample) :
    (runEncoder State.init pre).isSwitchPressed = 0 ↔ armedAfter pre := by
  constructor
  · induction pre using List.reverseRecOn with
    | nil => intro _; exact ⟨[], [], rfl, rfl, by simp⟩
    | append_singleton xs x ih =>
      intro h
      rw [runEncoder_append, runEncoder_cons, runEncoder_nil] at h
      rcases checkEncoder_latch_cleared _ x h with h0 | ⟨hs, hk⟩
      · refine ⟨xs ++ [x], [], by simp, ?_, by simp⟩
        rw [runEncoder_append, runEncoder_cons, runEncoder_nil]
        exact h0
      · obtain ⟨p1, p2, hsplit, hz, hno⟩ := ih hs
        refine ⟨p1, p2 ++ [x], by rw [hsplit, List.append_assoc], hz, ?_⟩
        intro e he
        rw [encoderEvents_append, List.mem_append] at he
        rcases he with he | he
        · exact hno e he
        · rw [← runEncoder_append, ← hsplit] at he
          simp only [encoderEvents_cons, encoderEvents_nil, List.mem_singleton] at he
          rw [he]; exact hk
  · rintro ⟨p1, p2, hsplit, hz, hno⟩
    have hinv := runEncoder_inv p1 State.init DebounceInv_init
    have hs : (runEncoder State.init p1).isSwitchPressed = 0 := by
      obtain ⟨_, h2, h3, _⟩ := hinv
      rcases h2 with h2 | h2
      · exact h2
      · have := h3 h2; omega
    rw [hsplit, runEncoder_append]
    exact no_mute_stays_unlatched p2 _ hs hno

theorem latched_mute_needs_reset (ps : List PinSample) :
    ∀ s : State, s.isSwitchPressed ≠ 0 → ∀ j : Nat,
      (encoderEvents s ps)[j]? = some VOLUMEMUTE →
      ∃ l : Nat, l < j ∧ ∃ t : State, (encoderTrace s ps)[l]? = some t ∧
        t.debounceCount = 0 ∧ t.isSwitchPressed = 0 := by
  induction ps with
  | nil => intro s _ j h; simp at h
  | cons x xs ih =>
    intro s hs j h
    cases j with
    | zero =>
      simp only [encoderEvents_cons, List.getElem?_cons_zero, Option.some.injEq] at h
      rw [checkEncoder_currentKey_mute_iff, muteFires_iff] at h
      exact absurd h.2.1 hs
    | succ j =>
      simp only [encoderEvents_cons, List.getElem?_cons_succ] at h
      by_cases hl : (checkEncoder s x).isSwitchPressed = 0
      · rcases checkEncoder_latch_cleared s x hl with h0 | ⟨h1, _⟩
        · exact ⟨0, by omega, checkEncoder s x, by simp, h0, hl⟩
        · exact absurd h1 hs
      · obtain ⟨l, hlj, t, ht, h0, h1⟩ := ih (checkEncoder s x) hl j h
        exact ⟨l + 1, by omega, t, by simpa using ht, h0, h1⟩

theorem mute_pair_has_reset (ps : List PinSample) :
    ∀ (s : State) (i j : Nat), i < j →
      (encoderEvents s ps)[i]? = some VOLUMEMUTE →
      (encoderEvents s ps)[j]? = some VOLUMEMUTE →
      ∃ l : Nat, i < l ∧ l < j ∧ ∃ t : State, (encoderTrace s ps)[l]? = some t ∧
        t.debounceCount = 0 ∧ t.isSwitchPressed = 0 := by
  induction ps with
  | nil => intro s i j _ h; simp at h
  | cons x xs ih =>
    intro s i j hij hi hj
    obtain ⟨j, rfl⟩ : ∃ k, j = k + 1 := ⟨j - 1, by omega⟩
    simp only [encoderEvents_cons, List.getElem?_cons_succ] at hj
    cases i with
    | zero =>
      simp only [encoderEvents_cons, List.getElem?_cons_zero, Option.some.injEq] at hi
      have hl : (checkEncoder s x).isSwitchPressed ≠ 0 := by
        rw [checkEncoder_mute_sets_latch s x hi]; decide
      obtain ⟨l, hlj, t, ht, h0, h1⟩ := latched_mute_needs_reset xs (checkEncoder s x) hl j hj
      exact ⟨l + 1, by omega, by omega, t, by simpa using ht, h0, h1⟩
    | succ i =>
      simp only [encoderEvents_cons, List.getElem?_cons_succ] at hi
      obtain ⟨l, hil, hlj, t, ht, h0, h1⟩ := ih (checkEncoder s x) i j (by omega) hi hj
      exact ⟨l + 1, by omega, by omega, t, by simpa using ht, h0, h1⟩

theorem muteCount_latched (run : List PinSample) (s : State)
    (hrun : ∀ p ∈ run, p.encSW = false) (hs : s.isSwitchPressed ≠ 0) :
    muteCount (encoderEvents s run) = 0 := by
  unfold muteCount
  rw [List.count_eq_zero]
  intro hmem
  simp only [encoderEvents, List.mem_map] at hmem
  obtain ⟨t, ht, hk⟩ := hmem
  exact (pressed_latched_no_mute run s hrun hs t ht).1 hk

theorem muteCount_unlatched (run : List PinSample) :
    ∀ s : State, (∀ p ∈ run, p.encSW = false) → s.isSwitchPressed = 0 → s.debounceCount < 50 →
      muteCount (encoderEvents s run) = if 50 ≤ s.debounceCount + run.length then 1 else 0 := by
  induction run with
  | nil => intro s _ _ hlt; rw [List.length_nil, if_neg (by omega)]; rfl
  | cons x xs ih =>
    intro s hrun hs hlt
    have hx : x.encSW = false := hrun x (List.mem_cons_self _ _)
    have hxs : ∀ p ∈ xs, p.encSW = false := fun p hp => hrun p (List.mem_cons_of_mem _ hp)
    have hdc := checkEncoder_pressed_debounceCount s x hx
    simp only [DEBOUNCE_THRESHOLD, if_pos hlt] at hdc
    have hisp := checkEncoder_pressed_isSwitchPressed s x hx
    rw [encoderEvents_cons, List.length_cons]
    by_cases h49 : s.debounceCount = 49
    · have hf : muteFires s x := (muteFires_iff s x).mpr ⟨hx, hs, Or.inl h49⟩
      have hk := (checkEncoder_currentKey_mute_iff s x).mpr hf
      have hl : (checkEncoder s x).isSwitchPressed ≠ 0 := by
        rw [hisp, if_pos hf]; decide
      have hrest := muteCount_latched xs (checkEncoder s x) hxs hl
      unfold muteCount at hrest ⊢
      rw [hk, List.count_cons_self, hrest, if_pos (by omega)]
    · have hnf : ¬ muteFires s x := by
        rw [muteFires_iff]; omega
      have hk : (checkEncoder s x).currentKey ≠ VOLUMEMUTE := by
        rw [Ne, checkEncoder_currentKey_mute_iff]; exact hnf
      have hl : (checkEncoder s x).isSwitchPressed = 0 := by
        rw [hisp, if_neg hnf]; exact hs
      have hlt2 : (checkEncoder s x).debounceCount < 50 := by rw [hdc]; omega
      have hrest := ih (checkEncoder s x) hxs hl hlt2
      unfold muteCount at hrest ⊢
      rw [List.count_cons_of_ne (Ne.symm hk), hrest, hdc]
      split_ifs <;> omega

/-! ## The two loops of `calibrateOscillator` -/

theorem targetValue_eq : targetValue = 2356 := by decide

theorem wrap16_of_range (i : Int) (h1 : -32768 ≤ i) (h2 : i < 32768) : wrap16 i = i := by
  unfold wrap16
  omega

theorem binarySearchLoop_fuel_mono (f : Nat → Int) (n : Nat) :
    ∀ (fuel step trialValue : Nat) (measured : List Nat) (r : SearchResult),
      binarySearchLoop f fuel step trialValue measured = some r →
      binarySearchLoop f (fuel + n) step trialValue measured = some r := by
  intro fuel
  induction fuel with
  | zero => intro step trialValue measured r h; simp [binarySearchLoop] at h
  | succ fuel ih =>
    intro step trialValue measured r h
    rw [show fuel + 1 + n = (fuel + n) + 1 by omega]
    simp only [binarySearchLoop] at h ⊢
    by_cases hstep : step / 2 > 0
    · rw [if_pos hstep] at h ⊢
      exact ih _ _ _ _ h
    · rw [if_neg hstep] at h ⊢
      exact h

theorem binarySearchLoop_spec (f : Nat → Int)
    (hrange : ∀ t, t ≤ 255 → -32768 ≤ f t ∧ f t ≤ 32767) :
    ∀ (k fuel trialValue : Nat) (measured : List Nat),
      k + 1 ≤ fuel → trialValue + 2 ^ (k + 1) ≤ 256 →
      ∃ r, binarySearchLoop f fuel (2 ^ k) trialValue measured = some r ∧
        trialValue ≤ r.trialValue ∧ r.trialValue + 1 ≤ trialValue + 2 ^ (k + 1) ∧
        r.measured.length = measured.length + (k + 1) ∧
        ((∀ a b, a ≤ b → b ≤ 255 → f a ≤ f b) →
          (∀ t, 1 ≤ t → t ≤ trialValue → f t < targetValue) →
          (∀ t, trialValue + 2 ^ (k + 1) ≤ t → t ≤ 255 → targetValue ≤ f t) →
          (∀ t, 1 ≤ t → t ≤ r.trialValue → f t < targetValue) ∧
          (∀ t, r.trialValue + 1 ≤ t → t ≤ 255 → targetValue ≤ f t)) := by
  intro k
  induction k with
  | zero =>
    intro fuel trialValue measured hfuel hle
    obtain ⟨fuel, rfl⟩ : ∃ n, fuel = n + 1 := ⟨fuel - 1, by omega⟩
    simp only [zero_add, pow_one, pow_zero] at hle ⊢
    have hmod : (trialValue + 1) % 256 = trialValue + 1 := Nat.mod_eq_of_lt (by omega)
    have hw : wrap16 (f (trialValue + 1)) = f (trialValue + 1) := by
      have := hrange (trialValue + 1) (by omega)
      exact wrap16_of_range _ this.1 (by omega)
    simp only [binarySearchLoop, hmod, hw, Nat.reduceDiv, gt_iff_lt, lt_self_iff_false, if_false]
    refine ⟨_, rfl, ?_, ?_, by simp, ?_⟩
    · dsimp only; split_ifs <;> omega
    · dsimp only; split_ifs <;> omega
    · intro hmono hlow hhigh
      dsimp only
      by_cases hx : f (trialValue + 1) < targetValue
      · rw [if_pos hx]
        refine ⟨fun t h1 h2 => ?_, fun t h1 h2 => hhigh t (by omega) h2⟩
        exact lt_of_le_of_lt (hmono t (trialValue + 1) h2 (by omega)) hx
      · rw [if_neg hx]
        refine ⟨hlow, fun t h1 h2 => ?_⟩
        exact le_trans (not_lt.mp hx) (hmono (trialValue + 1) t h1 h2)
  | succ k ih =>
    intro fuel trialValue measured hfuel hle
    obtain ⟨fuel, rfl⟩ : ∃ n, fuel = n + 1 := ⟨fuel - 1, by omega⟩
    have hpos : 0 < 2 ^ k := Nat.two_pow_pos k
    have e1 : 2 ^ (k + 1) = 2 * 2 ^ k := by ring
    have e2 : 2 ^ (k + 1 + 1) = 4 * 2 ^ k := by ring
    rw [e2] at hle
    have hmod : (trialValue + 2 ^ (k + 1)) % 256 = trialValue + 2 ^ (k + 1) :=
      Nat.mod_eq_of_lt (by omega)
    have hdiv : 2 ^ (k + 1) / 2 = 2 ^ k := by omega
    have hw : wrap16 (f (trialValue + 2 ^ (k + 1))) = f (trialValue + 2 ^ (k + 1)) := by
      have := hrange (trialValue + 2 ^ (k + 1)) (by omega)
      exact wrap16_of_range _ this.1 (by omega)
    simp only [binarySearchLoop, hmod, hw, hdiv, gt_iff_lt, hpos, if_true]
    by_cases hx : f (trialValue + 2 ^ (k + 1)) < targetValue
    · simp only [if_pos hx]
      obtain ⟨r, hr, h1, h2, h3, h4⟩ := ih fuel (trialValue + 2 ^ (k + 1))
        (measured ++ [trialValue + 2 ^ (k + 1)]) (by omega) (by omega)
      refine ⟨r, hr, by omega, by omega, ?_, ?_⟩
      · rw [h3, List.length_append, List.length_singleton]; omega
      · intro hmono hlow hhigh
        refine h4 hmono (fun t ht1 ht2 => ?_) (fun t ht1 ht2 => hhigh t (by omega) ht2)
        exact lt_of_le_of_lt (hmono t (trialValue + 2 ^ (k + 1)) ht2 (by omega)) hx
    · simp only [if_neg hx]
      obtain ⟨r, hr, h1, h2, h3, h4⟩ := ih fuel trialValue
        (measured ++ [trialValue + 2 ^ (k + 1)]) (by omega) (by omega)
      refine ⟨r, hr, by omega, by omega, ?_, ?_⟩
      · rw [h3, List.length_append, List.length_singleton]; omega
      · intro hmono hlow hhigh
        refine h4 hmono hlow (fun t ht1 ht2 => ?_)
        exact le_trans (not_lt.mp hx) (hmono (trialValue + 2 ^ (k + 1)) t ht1 ht2)

theorem neighbourhoodLoop_never_exits (f : Nat → Int) (trialValue : Nat) (h : 254 ≤ trialValue) :
    ∀ (fuel osccal optimumValue : Nat) (optimumDev : Int) (measured : List Nat),
      osccal ≤ 255 →
      neighbourhoodLoop f trialValue fuel osccal optimumValue optimumDev measured = none := by
  intro fuel
  induction fuel with
  | zero => intro _ _ _ _ _; rfl
  | succ fuel ih =>
    intro osccal optimumValue optimumDev measured hle
    simp only [neighbourhoodLoop, if_pos (show osccal ≤ trialValue + 1 by omega)]
    exact ih _ _ _ _ (by omega)

theorem calibrateOscillator_none_of_high_trial (f : Nat → Int) (fuel : Nat)
    (h : ∀ r, binarySearchLoop f fuel 128 0 [] = some r → 254 ≤ r.trialValue) :
    calibrateOscillator f fuel = none := by
  unfold calibrateOscillator
  cases hbs : binarySearchLoop f fuel 128 0 [] with
  | none => rfl
  | some r =>
    dsimp only
    rw [neighbourhoodLoop_never_exits f r.trialValue (h r hbs) fuel _ _ _ _ (by omega)]

/-! ## Single iterations of the main loop -/

theorem checkEncoder_currentKey_cases (s : State) (p : PinSample) :
    (checkEncoder s p).currentKey = 0 ∨ (checkEncoder s p).currentKey = VOLUMEMUTE ∨
    (checkEncoder s p).currentKey = VOLUMEUP ∨ (checkEncoder s p).currentKey = VOLUMEDOWN := by
  unfold checkEncoder
  dsimp only
  repeat' split
  all_goals (try simp_all [VOLUMEUP, VOLUMEDOWN, VOLUMEMUTE, DEBOUNCE_THRESHOLD])

theorem checkEncoder_rotation_edge (s : State) (p : PinSample)
    (h : (checkEncoder s p).currentKey = VOLUMEUP ∨ (checkEncoder s p).currentKey = VOLUMEDOWN) :
    s.lastA ≠ 0 ∧ p.encA = false := by
  revert h
  unfold checkEncoder
  dsimp only
  repeat' split
  all_goals (try simp_all [VOLUMEUP, VOLUMEDOWN, VOLUMEMUTE, DEBOUNCE_THRESHOLD])

theorem mainLoopIteration_sent (s : State) (p : PinSample) (ready : Bool)
    (hr : ready = true) (hk : (checkEncoder s p).currentKey ≠ s.reportBuffer.byte1) :
    (mainLoopIteration s p ready).2
        = some [s.reportBuffer.byte0, (checkEncoder s p).currentKey, s.reportBuffer.byte2] ∧
    (mainLoopIteration s p ready).1.reportBuffer
        = ⟨s.reportBuffer.byte0, (checkEncoder s p).currentKey, s.reportBuffer.byte2⟩ := by
  unfold mainLoopIteration reportStep
  rw [checkEncoder_reportBuffer, if_pos ⟨hr, Ne.symm hk⟩]
  simp only [checkEncoder_reportBuffer, ReportBuffer.toList]
  exact ⟨trivial, trivial⟩

theorem mainLoopIteration_not_sent (s : State) (p : PinSample) (ready : Bool)
    (h : ¬ (ready = true ∧ (checkEncoder s p).currentKey ≠ s.reportBuffer.byte1)) :
    (mainLoopIteration s p ready).2 = none ∧
    (mainLoopIteration s p ready).1.reportBuffer = s.reportBuffer := by
  unfold mainLoopIteration reportStep
  rw [checkEncoder_reportBuffer, if_neg (fun hc => h ⟨hc.1, Ne.symm hc.2⟩)]
  exact ⟨rfl, checkEncoder_reportBuffer s p⟩

theorem mainLoopIteration_encoder (s : State) (p : PinSample) (ready : Bool) :
    (mainLoopIteration s p ready).1.currentKey = (checkEncoder s p).currentKey ∧
    (mainLoopIteration s p ready).1.lastA = (checkEncoder s p).lastA ∧
    (mainLoopIteration s p ready).1.debounceCount = (checkEncoder s p).debounceCount ∧
    (mainLoopIteration s p ready).1.isSwitchPressed = (checkEncoder s p).isSwitchPressed := by
  unfold mainLoopIteration reportStep
  split_ifs <;> exact ⟨rfl, rfl, rfl, rfl⟩

@[simp] theorem mainLoopTrace_nil (s : State) : mainLoopTrace s [] = [] := rfl

@[simp] theorem mainLoopTrace_cons (s : State) (p : PinSample) (ready : Bool)
    (rest : List (PinSample × Bool)) :
    mainLoopTrace s ((p, ready) :: rest) =
      mainLoopIteration s p ready :: mainLoopTrace (mainLoopIteration s p ready).1 rest := rfl

@[simp] theorem runMainLoop_nil (s : State) : runMainLoop s [] = s := rfl

@[simp] theorem runMainLoop_cons (s : State) (p : PinSample) (ready : Bool)
    (rest : List (PinSample × Bool)) :
    runMainLoop s ((p, ready) :: rest) = runMainLoop (mainLoopIteration s p ready).1 rest := rfl

@[simp] theorem mainLoopTrace_length (s : State) (inputs : List (PinSample × Bool)) :
    (mainLoopTrace s inputs).length = inputs.length := by
  induction inputs generalizing s with
  | nil => rfl
  | cons x rest ih => obtain ⟨p, ready⟩ := x; simp [ih]

theorem transmittedCodes_chain (inputs : List (PinSample × Bool)) :
    ∀ s : State,
      List.Chain (fun a b => a ≠ b) s.reportBuffer.byte1
        (transmittedCodes (mainLoopTrace s inputs)) := by
  induction inputs with
  | nil => intro s; exact List.Chain.nil
  | cons x rest ih =>
    intro s
    obtain ⟨p, ready⟩ := x
    rw [mainLoopTrace_cons]
    by_cases h : ready = true ∧ (checkEncoder s p).currentKey ≠ s.reportBuffer.byte1
    · obtain ⟨h1, h2⟩ := mainLoopIteration_sent s p ready h.1 h.2
      have ih' := ih (mainLoopIteration s p ready).1
      rw [h2] at ih'
      unfold transmittedCodes at ih' ⊢
      rw [List.filterMap_cons_some (b := (checkEncoder s p).currentKey) (by rw [h1]; rfl)]
      exact List.Chain.cons (Ne.symm h.2) ih'
    · obtain ⟨h1, h2⟩ := mainLoopIteration_not_sent s p ready h
      have ih' := ih (mainLoopIteration s p ready).1
      rw [h2] at ih'
      unfold transmittedCodes at ih' ⊢
      rw [List.filterMap_cons_none (by rw [h1]; rfl)]
      exact ih'

theorem mainLoopIteration_reportInv (s : State) (p : PinSample) (ready : Bool)
    (h : ReportInv s) :
    ReportInv (mainLoopIteration s p ready).1 ∧
    ∀ bytes, (mainLoopIteration s p ready).2 = some bytes →
      ∃ code, bytes = [1, code, 0] ∧
        (code = 0 ∨ code = VOLUMEMUTE ∨ code = VOLUMEUP ∨ code = VOLUMEDOWN) := by
  obtain ⟨h0, h2, h1⟩ := h
  by_cases hc : ready = true ∧ (checkEncoder s p).currentKey ≠ s.reportBuffer.byte1
  · obtain ⟨e1, e2⟩ := mainLoopIteration_sent s p ready hc.1 hc.2
    refine ⟨?_, ?_⟩
    · unfold ReportInv
      rw [e2]
      exact ⟨h0, h2, checkEncoder_currentKey_cases s p⟩
    · intro bytes hb
      rw [e1, h0, h2] at hb
      exact ⟨_, (Option.some.inj hb).symm, checkEncoder_currentKey_cases s p⟩
  · obtain ⟨e1, e2⟩ := mainLoopIteration_not_sent s p ready hc
    refine ⟨?_, ?_⟩
    · unfold ReportInv
      rw [e2]
      exact ⟨h0, h2, h1⟩
    · intro bytes hb
      rw [e1] at hb
      exact absurd hb (by simp)

theorem usbFunctionSetup_reportBuffer (c : UsbConsts) (s : State) (rq : SetupPacket) :
    (usbFunctionSetup c s rq).1.reportBuffer = s.reportBuffer := by
  unfold usbFunctionSetup
  split_ifs <;> rfl

theorem step_reportInv (c : UsbConsts) (s : State) (x : Step) (h : ReportInv s) :
    ReportInv (step c s x).1 ∧
    ∀ bytes, (step c s x).2 = some bytes →
      ∃ code, bytes = [1, code, 0] ∧
        (code = 0 ∨ code = VOLUMEMUTE ∨ code = VOLUMEUP ∨ code = VOLUMEDOWN) := by
  cases x with
  | loop p ready => exact mainLoopIteration_reportInv s p ready h
  | setup rq =>
    refine ⟨?_, ?_⟩
    · unfold ReportInv step
      dsimp only
      rw [usbFunctionSetup_reportBuffer]
      exact h
    · intro bytes hb
      simp [step] at hb

theorem ReportInv_init : ReportInv State.init := by
  unfold ReportInv State.init
  simp

theorem runSteps_reportInv (c : UsbConsts) (steps : List Step) :
    ∀ s : State, ReportInv s →
      ReportInv (runSteps c s steps) ∧
      ∀ r ∈ stepTrace c s steps, ReportInv r.1 ∧ ∀ bytes, r.2 = some bytes →
        ∃ code, bytes = [1, code, 0] ∧
          (code = 0 ∨ code = VOLUMEMUTE ∨ code = VOLUMEUP ∨ code = VOLUMEDOWN) := by
  induction steps with
  | nil => intro s h; exact ⟨h, fun r hr => by simp [stepTrace] at hr⟩
  | cons x xs ih =>
    intro s h
    obtain ⟨h1, h2⟩ := step_reportInv c s x h
    obtain ⟨ih1, ih2⟩ := ih (step c s x).1 h1
    refine ⟨ih1, ?_⟩
    intro r hr
    simp only [stepTrace, List.mem_cons] at hr
    rcases hr with rfl | hr
    · exact ⟨h1, h2⟩
    · exact ih2 r hr

theorem mainLoopTrace_quiet (tail : List PinSample) :
    ∀ (s : State) (prevA : Bool), (s.lastA ≠ 0 ↔ prevA = true) →
      s.reportBuffer.byte1 = 0 →
      (∀ p ∈ tail, p.encSW = true) → noFallingEdge prevA tail →
      (∀ r ∈ mainLoopTrace s (tail.map (fun p => (p, true))),
        r.1.currentKey = 0 ∧ r.2 = none ∧ r.1.reportBuffer = s.reportBuffer) ∧
      (runMainLoop s (tail.map (fun p => (p, true)))).reportBuffer = s.reportBuffer := by
  induction tail with
  | nil => intro s prevA _ _ _ _; exact ⟨fun r hr => by simp at hr, rfl⟩
  | cons x xs ih =>
    intro s prevA hprev hb hrel hno
    have hx : x.encSW = true := hrel x (List.mem_cons_self _ _)
    have hxs : ∀ p ∈ xs, p.encSW = true := fun p hp => hrel p (List.mem_cons_of_mem _ hp)
    obtain ⟨hno1, hno2⟩ := hno
    have hkey : (checkEncoder s x).currentKey = 0 := by
      rw [checkEncoder_released_currentKey s x hx, if_neg]
      rintro ⟨h1, h2⟩
      exact hno1 ⟨hprev.mp h1, h2⟩
    have hns := mainLoopIteration_not_sent s x true (by rw [hkey, hb]; simp)
    have henc := mainLoopIteration_encoder s x true
    have hlast : ((mainLoopIteration s x true).1.lastA ≠ 0 ↔ x.encA = true) := by
      rw [henc.2.1, checkEncoder_lastA]
      cases x.encA <;> simp
    obtain ⟨ih1, ih2⟩ := ih (mainLoopIteration s x true).1 x.encA hlast
      (by rw [hns.2]; exact hb) hxs hno2
    rw [hns.2] at ih1 ih2
    simp only [List.map_cons, mainLoopTrace_cons, runMainLoop_cons, List.mem_cons]
    refine ⟨?_, ih2⟩
    rintro r (rfl | hr)
    · exact ⟨by rw [henc.1]; exact hkey, hns.1, hns.2⟩
    · exact ih1 r hr

theorem checkEncoder_event_changes (s : State) (p : PinSample)
    (hm : s.currentKey = VOLUMEMUTE → s.isSwitchPressed ≠ 0)
    (hr : s.currentKey = VOLUMEUP ∨ s.currentKey = VOLUMEDOWN → s.lastA = 0)
    (h : (checkEncoder s p).currentKey ≠ 0) :
    (checkEncoder s p).currentKey ≠ s.currentKey := by
  intro heq
  rcases checkEncoder_currentKey_cases s p with h0 | hmute | hrot
  · exact h h0
  · have hf := (checkEncoder_currentKey_mute_iff s p).mp hmute
    exact hm (heq ▸ hmute) hf.2.1
  · have hedge := checkEncoder_rotation_edge s p hrot
    exact hedge.1 (hr (heq ▸ hrot))

theorem mainLoopIteration_syncInv (s : State) (p : PinSample) (h : SyncInv s) :
    SyncInv (mainLoopIteration s p true).1 ∧
    ((mainLoopIteration s p true).1.currentKey ≠ 0 →
      (mainLoopIteration s p true).2 = some [1, (mainLoopIteration s p true).1.currentKey, 0] ∧
      (mainLoopIteration s p true).1.currentKey ≠ s.currentKey) := by
  obtain ⟨h0, h2, h1, hm, hr⟩ := h
  obtain ⟨e1, e2, _, e4⟩ := mainLoopIteration_encoder s p true
  have hm' : (checkEncoder s p).currentKey = VOLUMEMUTE →
      (checkEncoder s p).isSwitchPressed ≠ 0 := by
    intro hk
    rw [checkEncoder_mute_sets_latch s p hk]; decide
  have hr' : (checkEncoder s p).currentKey = VOLUMEUP ∨
      (checkEncoder s p).currentKey = VOLUMEDOWN → (checkEncoder s p).lastA = 0 := by
    intro hk
    rw [checkEncoder_lastA, (checkEncoder_rotation_edge s p hk).2]; rfl
  by_cases hc : (checkEncoder s p).currentKey ≠ s.reportBuffer.byte1
  · obtain ⟨s1, s2⟩ := mainLoopIteration_sent s p true rfl hc
    refine ⟨?_, ?_⟩
    · unfold SyncInv
      rw [e1, e2, e4, s2]
      exact ⟨h0, h2, rfl, hm', hr'⟩
    · intro hk
      rw [e1] at hk ⊢
      rw [s1, h0, h2]
      exact ⟨rfl, checkEncoder_event_changes s p hm hr hk⟩
  · obtain ⟨n1, n2⟩ := mainLoopIteration_not_sent s p true (fun hh => hc hh.2)
    have heq : (checkEncoder s p).currentKey = s.reportBuffer.byte1 := not_not.mp hc
    refine ⟨?_, ?_⟩
    · unfold SyncInv
      rw [e1, e2, e4, n2]
      exact ⟨h0, h2, heq.symm, hm', hr'⟩
    · intro hk
      rw [e1] at hk
      exact absurd (heq.trans h1) (checkEncoder_event_changes s p hm hr hk)

theorem SyncInv_init : SyncInv State.init := by
  unfold SyncInv State.init
  simp [VOLUMEMUTE, VOLUMEUP, VOLUMEDOWN]

theorem mainLoopTrace_always_ready (ps : List PinSample) :
    ∀ s : State, SyncInv s →
      (∀ r, (mainLoopTrace s (ps.map (fun p => (p, true))))[0]? = some r →
        r.1.currentKey ≠ 0 →
        r.2 = some [1, r.1.currentKey, 0] ∧ r.1.currentKey ≠ s.currentKey) ∧
      (∀ i r r', (mainLoopTrace s (ps.map (fun p => (p, true))))[i]? = some r →
        (mainLoopTrace s (ps.map (fun p => (p, true))))[i + 1]? = some r' →
        r'.1.currentKey ≠ 0 →
        r'.2 = some [1, r'.1.currentKey, 0] ∧ r'.1.currentKey ≠ r.1.currentKey) := by
  induction ps with
  | nil => intro s _; exact ⟨fun r hr => by simp at hr, fun i r r' hr => by simp at hr⟩
  | cons x xs ih =>
    intro s hs
    obtain ⟨hinv, hstep⟩ := mainLoopIteration_syncInv s x hs
    obtain ⟨ih0, ihs⟩ := ih (mainLoopIteration s x true).1 hinv
    simp only [List.map_cons, mainLoopTrace_cons]
    refine ⟨?_, ?_⟩
    · intro r hr hk
      simp only [List.getElem?_cons_zero, Option.some.injEq] at hr
      subst hr
      exact hstep hk
    · intro i r r' hr hr' hk
      simp only [List.getElem?_cons_succ] at hr'
      cases i with
      | zero =>
        simp only [List.getElem?_cons_zero, Option.some.injEq] at hr
        subst hr
        exact ih0 r' hr' hk
      | succ i =>
        simp only [List.getElem?_cons_succ] at hr
        exact ihs i r r' hr hr' hk

/-! ## The binary search as a fold over its steps -/

theorem binarySearchLoop_fold (f : Nat → Int)
    (hrange : ∀ t, t ≤ 255 → -32768 ≤ f t ∧ f t ≤ 32767) :
    ∀ (k fuel trialValue : Nat) (measured : List Nat),
      k + 1 ≤ fuel → trialValue + 2 ^ (k + 1) ≤ 256 →
      ∃ r, binarySearchLoop f fuel (2 ^ k) trialValue measured = some r ∧
        (r.trialValue, r.measured) = (halvings k).foldl (searchStep f) (trialValue, measured) := by
  intro k
  induction k with
  | zero =>
    intro fuel trialValue measured hfuel hle
    obtain ⟨fuel, rfl⟩ : ∃ n, fuel = n + 1 := ⟨fuel - 1, by omega⟩
    simp only [zero_add, pow_one, pow_zero] at hle ⊢
    have hmod : (trialValue + 1) % 256 = trialValue + 1 := Nat.mod_eq_of_lt (by omega)
    have hw : wrap16 (f (trialValue + 1)) = f (trialValue + 1) := by
      have := hrange (trialValue + 1) (by omega)
      exact wrap16_of_range _ this.1 (by omega)
    simp only [binarySearchLoop, hmod, hw, Nat.reduceDiv, gt_iff_lt, lt_self_iff_false, if_false]
    exact ⟨_, rfl, rfl⟩
  | succ k ih =>
    intro fuel trialValue measured hfuel hle
    obtain ⟨fuel, rfl⟩ : ∃ n, fuel = n + 1 := ⟨fuel - 1, by omega⟩
    have hpos : 0 < 2 ^ k := Nat.two_pow_pos k
    have e1 : 2 ^ (k + 1) = 2 * 2 ^ k := by ring
    have e2 : 2 ^ (k + 1 + 1) = 4 * 2 ^ k := by ring
    rw [e2] at hle
    have hmod : (trialValue + 2 ^ (k + 1)) % 256 = trialValue + 2 ^ (k + 1) :=
      Nat.mod_eq_of_lt (by omega)
    have hdiv : 2 ^ (k + 1) / 2 = 2 ^ k := by omega
    have hw : wrap16 (f (trialValue + 2 ^ (k + 1))) = f (trialValue + 2 ^ (k + 1)) := by
      have := hrange (trialValue + 2 ^ (k + 1)) (by omega)
      exact wrap16_of_range _ this.1 (by omega)
    simp only [binarySearchLoop, hmod, hw, hdiv, gt_iff_lt, hpos, if_true, halvings,
      List.foldl_cons, searchStep]
    apply ih fuel _ _ (by omega)
    split_ifs <;> omega

/-! ## Distance between two Mutes -/

theorem encoderTrace_mute_debounceCount (ps : List PinSample) :
    ∀ (s : State) (i : Nat) (t : State), (encoderTrace s ps)[i]? = some t →
      t.currentKey = VOLUMEMUTE → t.debounceCount = 50 := by
  induction ps with
  | nil => intro s i t h; simp at h
  | cons x xs ih =>
    intro s i t h hk
    cases i with
    | zero =>
      simp only [encoderTrace_cons, List.getElem?_cons_zero, Option.some.injEq] at h
      subst h
      have hf := (checkEncoder_currentKey_mute_iff s x).mp hk
      rw [checkEncoder_pressed_debounceCount s x hf.1]
      exact hf.2.2
    | succ i =>
      simp only [encoderTrace_cons, List.getElem?_cons_succ] at h
      exact ih _ i t h hk

theorem checkEncoder_counter_drift (s : State) (p : PinSample) (h : s.debounceCount ≤ 50) :
    (checkEncoder s p).debounceCount ≤ 50 ∧
    s.debounceCount ≤ (checkEncoder s p).debounceCount + 1 ∧
    (checkEncoder s p).debounceCount ≤ s.debounceCount + 1 := by
  cases hsw : p.encSW with
  | false =>
    rw [checkEncoder_pressed_debounceCount s p hsw]
    simp only [DEBOUNCE_THRESHOLD]
    split_ifs <;> omega
  | true =>
    rw [checkEncoder_released_debounceCount s p hsw]
    split_ifs <;> omega

theorem encoderTrace_counter_drift (ps : List PinSample) :
    ∀ (s : State), s.debounceCount ≤ 50 → ∀ (m : Nat) (t : State),
      (encoderTrace s ps)[m]? = some t →
      t.debounceCount ≤ 50 ∧ s.debounceCount ≤ t.debounceCount + (m + 1) ∧
        t.debounceCount ≤ s.debounceCount + (m + 1) := by
  induction ps with
  | nil => intro s _ m t h; simp at h
  | cons x xs ih =>
    intro s hs m t h
    obtain ⟨d1, d2, d3⟩ := checkEncoder_counter_drift s x hs
    cases m with
    | zero =>
      simp only [encoderTrace_cons, List.getElem?_cons_zero, Option.some.injEq] at h
      subst h
      exact ⟨d1, by omega, by omega⟩
    | succ m =>
      simp only [encoderTrace_cons, List.getElem?_cons_succ] at h
      obtain ⟨i1, i2, i3⟩ := ih _ d1 m t h
      exact ⟨i1, by omega, by omega⟩

theorem encoderTrace_suffix (ps : List PinSample) :
    ∀ (s : State) (i : Nat) (t : State), (encoderTrace s ps)[i]? = some t →
      ∀ m : Nat, (encoderTrace s ps)[i + 1 + m]? = (encoderTrace t (ps.drop (i + 1)))[m]? := by
  induction ps with
  | nil => intro s i t h; simp at h
  | cons x xs ih =>
    intro s i t h m
    cases i with
    | zero =>
      simp only [encoderTrace_cons, List.getElem?_cons_zero, Option.some.injEq] at h
      subst h
      simp only [zero_add, encoderTrace_cons, List.drop_succ_cons, List.drop_zero]
      rw [show 1 + m = m + 1 by omega, List.getElem?_cons_succ]
    | succ i =>
      simp only [encoderTrace_cons, List.getElem?_cons_succ] at h
      rw [show i + 1 + 1 + m = (i + 1 + m) + 1 by omega, encoderTrace_cons,
        List.getElem?_cons_succ, List.drop_succ_cons]
      exact ih _ i t h m

theorem mute_pair_distance (ps : List PinSample) (s : State) (hs : s.debounceCount ≤ 50)
    (i j : Nat) (hij : i < j)
    (hi : (encoderEvents s ps)[i]? = some VOLUMEMUTE)
    (hj : (encoderEvents s ps)[j]? = some VOLUMEMUTE) :
    i + 100 ≤ j := by
  obtain ⟨l, hil, hlj, tl, htl, hl0, _⟩ := mute_pair_has_reset ps s i j hij hi hj
  simp only [encoderEvents, List.getElem?_map, Option.map_eq_some'] at hi hj
  obtain ⟨ti, hti, hki⟩ := hi
  obtain ⟨tj, htj, hkj⟩ := hj
  have hdi := encoderTrace_mute_debounceCount ps s i ti hti hki
  have hdj := encoderTrace_mute_debounceCount ps s j tj htj hkj
  have hl50 := (encoderTrace_counter_drift ps s hs l tl htl).1
  have e1 := encoderTrace_suffix ps s i ti hti (l - (i + 1))
  rw [show i + 1 + (l - (i + 1)) = l by omega, htl] at e1
  have d1 := (encoderTrace_counter_drift _ ti (by omega) _ tl e1.symm).2.1
  have e2 := encoderTrace_suffix ps s l tl htl (j - (l + 1))
  rw [show l + 1 + (j - (l + 1)) = j by omega, htj] at e2
  have d2 := (encoderTrace_counter_drift _ tl (by omega) _ tj e2.symm).2.2
  omega

/-! ## Rotation detection (C1) -/

/-- C1 as stated fails: with `lastA` high, phase A sampled low and phase B
high, the call that also brings the debounce counter from 49 to 50 leaves
`VOLUMEMUTE`, not `VOLUMEUP` or `VOLUMEDOWN`, in `currentKey`. -/
theorem checkEncoder_edge_overwritten_by_mute :
    ¬ (((checkEncoder edgeWithMuteState edgeWithMuteSample).currentKey = VOLUMEUP ∨
        (checkEncoder edgeWithMuteState edgeWithMuteSample).currentKey = VOLUMEDOWN) ↔
       (edgeWithMuteState.lastA ≠ 0 ∧ edgeWithMuteSample.encA = false)) := by
  decide

/-- C1, amended: for every state and every pin sample, `currentKey` after one
call is `VOLUMEUP` or `VOLUMEDOWN` exactly when `lastA` was high, phase A is
sampled low and the mute branch is not taken in that call; it is `VOLUMEUP`
exactly when, in addition, phase B is sampled high, and `VOLUMEDOWN` exactly
when phase B is sampled low. -/
theorem checkEncoder_rotation_iff (s : State) (p : PinSample) :
    (((checkEncoder s p).currentKey = VOLUMEUP ∨ (checkEncoder s p).currentKey = VOLUMEDOWN) ↔
        (s.lastA ≠ 0 ∧ p.encA = false ∧ ¬ muteFires s p)) ∧
    ((checkEncoder s p).currentKey = VOLUMEUP ↔
        (s.lastA ≠ 0 ∧ p.encA = false ∧ ¬ muteFires s p ∧ p.encB = true)) ∧
    ((checkEncoder s p).currentKey = VOLUMEDOWN ↔
        (s.lastA ≠ 0 ∧ p.encA = false ∧ ¬ muteFires s p ∧ p.encB = false)) := by
  unfold checkEncoder muteFires
  dsimp only
  repeat' split
  all_goals (try simp_all [VOLUMEUP, VOLUMEDOWN, VOLUMEMUTE, DEBOUNCE_THRESHOLD])
  all_goals (try omega)

/-! ## Rotation events with the switch released (C7) -/

/-- C7: for every finite sequence of samples with the switch released, run
from the initial state (`lastA = 1`, `debounceCount = 0`,
`isSwitchPressed = 0`), the event at index 0 is the rotation event of the first
sample against a previous phase A taken as high, and the event at every later
index `j + 1` is the rotation event of sample `j + 1` against the phase A of
sample `j`: `VOLUMEUP` on a falling edge with phase B high, `VOLUMEDOWN` on a
falling edge with phase B low, and 0 at every other index. -/
theorem released_rotation_events (ps : List PinSample) (hrel : ∀ p ∈ ps, p.encSW = true) :
    (∀ p, ps[0]? = some p →
      (encoderEvents State.init ps)[0]? = some (rotationEvent true p)) ∧
    (∀ j q p, ps[j]? = some q → ps[j + 1]? = some p →
      (encoderEvents State.init ps)[j + 1]? = some (rotationEvent q.encA p)) := by
  have h := released_events_aux ps State.init hrel
  simpa [State.init] using h

/-- C7, the scenario of the specification: phase A sampled `[1,1,0]` with
phase B sampled `[1,1,1]` gives the events `[0, 0, VOLUMEUP]`. -/
theorem released_rotation_events_witness :
    (∀ p ∈ [(⟨true, true, true⟩ : PinSample), ⟨true, true, true⟩, ⟨false, true, true⟩],
        p.encSW = true) ∧
    encoderEvents State.init [⟨true, true, true⟩, ⟨true, true, true⟩, ⟨false, true, true⟩]
      = [0, 0, VOLUMEUP] ∧
    (encoderEvents State.init [⟨true, true, true⟩, ⟨true, true, true⟩, ⟨false, true, true⟩])[2]?
      = some (rotationEvent true ⟨false, true, true⟩) :=
  ⟨by decide, by decide,
    (released_rotation_events [⟨true, true, true⟩, ⟨true, true, true⟩, ⟨false, true, true⟩]
      (by decide)).2 1 ⟨true, true, true⟩ ⟨false, true, true⟩ rfl rfl⟩

/-! ## The debounced switch (C8, C9) -/

/-- C8: from any state with `debounceCount = 0` and `isSwitchPressed = 0`, a
run of `n ≥ 50` pressed samples (phases A and B arbitrary) leaves `VOLUMEMUTE`
in `currentKey` on the 50th sample (index 49) and on no other sample of the
run, and ends with `debounceCount = 50` and `isSwitchPressed = 1`. -/
theorem mute_on_fiftieth_pressed (s : State) (run : List PinSample)
    (hdc : s.debounceCount = 0) (hisp : s.isSwitchPressed = 0)
    (hrun : ∀ p ∈ run, p.encSW = false) (hn : 50 ≤ run.length) :
    (∀ i, (encoderEvents s run)[i]? = some VOLUMEMUTE ↔ i = 49) ∧
    (runEncoder s run).debounceCount = 50 ∧
    (runEncoder s run).isSwitchPressed = 1 := by
  refine ⟨?_, ?_, ?_⟩
  · intro i
    rw [pressed_unlatched_mute_index run s hrun hisp (by omega) i]
    omega
  · rw [pressed_debounceCount run s hrun (by omega)]
    omega
  · rw [pressed_unlatched_isSwitchPressed run s hrun hisp (by omega), if_pos (by omega)]

/-- C8 at a concrete input: sixty pressed samples from the initial state. -/
theorem mute_on_fiftieth_pressed_witness :
    (∀ i, (encoderEvents State.init (List.replicate 60 ⟨true, true, false⟩))[i]?
        = some VOLUMEMUTE ↔ i = 49) ∧
    (runEncoder State.init (List.replicate 60 ⟨true, true, false⟩)).debounceCount = 50 ∧
    (runEncoder State.init (List.replicate 60 ⟨true, true, false⟩)).isSwitchPressed = 1 :=
  mute_on_fiftieth_pressed State.init (List.replicate 60 ⟨true, true, false⟩) rfl rfl
    (fun p hp => by rw [List.eq_of_mem_replicate hp]) (by simp)

/-- C9: from any state with `debounceCount = 0` and `isSwitchPressed = 0`,
`k < 50` pressed samples followed by `m` released samples leave `VOLUMEMUTE` in
`currentKey` on no sample, leave `isSwitchPressed = 0` after every sample, and
leave `debounceCount = max (k - m) 0` at the end. -/
theorem short_press_no_mute (s : State) (pressed released : List PinSample)
    (hdc : s.debounceCount = 0) (hisp : s.isSwitchPressed = 0)
    (hP : ∀ p ∈ pressed, p.encSW = false) (hR : ∀ p ∈ released, p.encSW = true)
    (hk : pressed.length < 50) :
    (∀ e ∈ encoderEvents s (pressed ++ released), e ≠ VOLUMEMUTE) ∧
    (∀ t ∈ encoderTrace s (pressed ++ released), t.isSwitchPressed = 0) ∧
    ((runEncoder s (pressed ++ released)).debounceCount : Int)
      = max ((pressed.length : Int) - (released.length : Int)) 0 := by
  have hP1 := pressed_unlatched_below pressed s hP hisp (by omega)
  have hPdc := pressed_debounceCount pressed s hP (by omega)
  have hPisp := pressed_unlatched_isSwitchPressed pressed s hP hisp (by omega)
  rw [if_neg (by omega)] at hPisp
  obtain ⟨hR1, hRdc⟩ := released_unlatched released (runEncoder s pressed) hR hPisp
    (by rw [hPdc]; omega)
  have hall : ∀ t ∈ encoderTrace s (pressed ++ released),
      t.currentKey ≠ VOLUMEMUTE ∧ t.isSwitchPressed = 0 := by
    intro t ht
    rw [encoderTrace_append, List.mem_append] at ht
    rcases ht with ht | ht
    · exact hP1 t ht
    · exact hR1 t ht
  refine ⟨?_, fun t ht => (hall t ht).2, ?_⟩
  · intro e he
    simp only [encoderEvents, List.mem_map] at he
    obtain ⟨t, ht, rfl⟩ := he
    exact (hall t ht).1
  · rw [runEncoder_append, hRdc, hPdc]
    omega

/-- C9, the scenario of the specification: 49 pressed samples and then one
released sample give no `VOLUMEMUTE` and leave `debounceCount = 48`. -/
theorem short_press_no_mute_witness :
    (∀ e ∈ encoderEvents State.init
        (List.replicate 49 ⟨true, true, false⟩ ++ [⟨true, true, true⟩]), e ≠ VOLUMEMUTE) ∧
    (runEncoder State.init
        (List.replicate 49 ⟨true, true, false⟩ ++ [⟨true, true, true⟩])).debounceCount = 48 := by
  have h := short_press_no_mute State.init (List.replicate 49 ⟨true, true, false⟩)
    [⟨true, true, true⟩] rfl rfl (fun p hp => by rw [List.eq_of_mem_replicate hp])
    (by decide) (by simp)
  refine ⟨h.1, ?_⟩
  have h3 := h.2.2
  simp only [List.length_replicate, List.length_singleton] at h3
  omega

/-! ## One Mute per press (C2, C10) -/

set_option maxRecDepth 100000

/-- C2 as stated fails: after 49 pressed samples and one released sample, the
next maximal run of pressed samples has only two samples, fewer than 50, and
contains a Mute: the events of the whole sequence are 51 times 0 and then
`VOLUMEMUTE`. -/
theorem mute_in_short_run :
    encoderEvents State.init (bouncePrefix ++ [pressedSample, pressedSample])
      = List.replicate 51 0 ++ [VOLUMEMUTE] ∧
    bouncePrefix.getLast? = some releasedSample ∧
    [pressedSample, pressedSample].length < 50 ∧
    muteCount (encoderEvents (runEncoder State.init bouncePrefix)
      [pressedSample, pressedSample]) ≠ 0 := by
  decide

/-- C2, amended: for every sequence of samples `pre` run from the initial
state and every run of pressed samples that follows it, the run contains
exactly one Mute if `debounceCount` has been 0 at some point since the previous
Mute (or no Mute has fired yet) and the run is long enough to bring the counter
from its value at the start of the run up to 50, and contains no Mute
otherwise. -/
theorem mute_count_of_pressed_run (pre run : List PinSample)
    (hrun : ∀ p ∈ run, p.encSW = false) :
    ((armedAfter pre ∧ 50 ≤ (runEncoder State.init pre).debounceCount + run.length) →
      muteCount (encoderEvents (runEncoder State.init pre) run) = 1) ∧
    (¬ (armedAfter pre ∧ 50 ≤ (runEncoder State.init pre).debounceCount + run.length) →
      muteCount (encoderEvents (runEncoder State.init pre) run) = 0) := by
  have hinv := runEncoder_inv pre State.init DebounceInv_init
  obtain ⟨h1, h2, h3, h4⟩ := hinv
  simp only [DEBOUNCE_THRESHOLD] at h1 h4
  rw [← unlatched_iff_armed]
  by_cases hs : (runEncoder State.init pre).isSwitchPressed = 0
  · have hlt : (runEncoder State.init pre).debounceCount < 50 := by
      rcases Nat.lt_or_ge (runEncoder State.init pre).debounceCount 50 with h | h
      · exact h
      · have := h4 (by omega); omega
    have hc := muteCount_unlatched run _ hrun hs hlt
    constructor
    · rintro ⟨_, hlen⟩
      rw [hc, if_pos hlen]
    · intro hn
      rw [hc, if_neg (fun hlen => hn ⟨hs, hlen⟩)]
  · have hc := muteCount_latched run _ hrun hs
    constructor
    · rintro ⟨h, _⟩; exact absurd h hs
    · intro _; exact hc

/-- C2 at a concrete input: after 49 pressed samples and one released sample,
a run of two pressed samples contains exactly one Mute. -/
theorem mute_count_of_pressed_run_witness :
    (∀ p ∈ [pressedSample, pressedSample], p.encSW = false) ∧
    muteCount (encoderEvents (runEncoder State.init bouncePrefix)
      [pressedSample, pressedSample]) = 1 :=
  ⟨by decide,
    (mute_count_of_pressed_run bouncePrefix [pressedSample, pressedSample] (by decide)).1
      ⟨⟨[], bouncePrefix, rfl, rfl, by decide⟩, by decide⟩⟩

/-- C10: for every sequence of samples run from the initial state, between any
two calls that leave `VOLUMEMUTE` in `currentKey` there is a call that ends with
`debounceCount = 0` and `isSwitchPressed = 0`. -/
theorem mute_separated_by_reset (ps : List PinSample) (i j : Nat) (hij : i < j)
    (hi : (encoderEvents State.init ps)[i]? = some VOLUMEMUTE)
    (hj : (encoderEvents State.init ps)[j]? = some VOLUMEMUTE) :
    ∃ l : Nat, i < l ∧ l < j ∧ ∃ t : State, (encoderTrace State.init ps)[l]? = some t ∧
      t.debounceCount = 0 ∧ t.isSwitchPressed = 0 :=
  mute_pair_has_reset ps State.init i j hij hi hj

/-- C10 at a concrete input: fifty pressed, fifty released and fifty pressed
samples fire Mute at indices 49 and 149, and the counter is back at 0 in
between. -/
theorem mute_separated_by_reset_witness :
    (encoderEvents State.init twoPresses)[49]? = some VOLUMEMUTE ∧
    (encoderEvents State.init twoPresses)[149]? = some VOLUMEMUTE ∧
    ∃ l : Nat, 49 < l ∧ l < 149 ∧ ∃ t : State, (encoderTrace State.init twoPresses)[l]? = some t ∧
      t.debounceCount = 0 ∧ t.isSwitchPressed = 0 :=
  ⟨by decide, by decide,
    mute_separated_by_reset twoPresses 49 149 (by decide) (by decide) (by decide)⟩

/-! ## Transmission of the report (C3) -/

/-- C3: for every state left by `checkEncoder` (every report buffer, every
event code `k` in `currentKey`) and every value of `usbInterruptIsReady()`, the
transmission step calls `usbSetInterrupt` exactly when the driver is ready and
`k` differs from `reportBuffer[1]`; when it does, `reportBuffer[1]` has been
set to `k` and the bytes handed over are `[reportBuffer[0], k, reportBuffer[2]]`;
when it does not, `reportBuffer` is unchanged.  The same holds for a whole
iteration of the main loop, with `k` the event left by its `checkEncoder` call. -/
theorem report_transmitted_iff_ready_and_changed (s : State) (p : PinSample) (ready : Bool) :
    (((reportStep s ready).2.isSome = true ↔
        (ready = true ∧ s.currentKey ≠ s.reportBuffer.byte1)) ∧
      ((reportStep s ready).2.isSome = true →
        (reportStep s ready).1.reportBuffer
            = ⟨s.reportBuffer.byte0, s.currentKey, s.reportBuffer.byte2⟩ ∧
          (reportStep s ready).2
            = some [s.reportBuffer.byte0, s.currentKey, s.reportBuffer.byte2]) ∧
      ((reportStep s ready).2 = none → (reportStep s ready).1.reportBuffer = s.reportBuffer)) ∧
    (((mainLoopIteration s p ready).2.isSome = true ↔
        (ready = true ∧ (checkEncoder s p).currentKey ≠ s.reportBuffer.byte1)) ∧
      ((mainLoopIteration s p ready).2.isSome = true →
        (mainLoopIteration s p ready).1.reportBuffer
            = ⟨s.reportBuffer.byte0, (checkEncoder s p).currentKey, s.reportBuffer.byte2⟩ ∧
          (mainLoopIteration s p ready).2
            = some [s.reportBuffer.byte0, (checkEncoder s p).currentKey, s.reportBuffer.byte2]) ∧
      ((mainLoopIteration s p ready).2 = none →
        (mainLoopIteration s p ready).1.reportBuffer = s.reportBuffer)) := by
  have key : ∀ u : State,
      ((reportStep u ready).2.isSome = true ↔
        (ready = true ∧ u.currentKey ≠ u.reportBuffer.byte1)) ∧
      ((reportStep u ready).2.isSome = true →
        (reportStep u ready).1.reportBuffer
            = ⟨u.reportBuffer.byte0, u.currentKey, u.reportBuffer.byte2⟩ ∧
          (reportStep u ready).2
            = some [u.reportBuffer.byte0, u.currentKey, u.reportBuffer.byte2]) ∧
      ((reportStep u ready).2 = none → (reportStep u ready).1.reportBuffer = u.reportBuffer) := by
    intro u
    unfold reportStep
    by_cases hc : ready = true ∧ u.reportBuffer.byte1 ≠ u.currentKey
    · rw [if_pos hc]
      refine ⟨?_, ?_, ?_⟩
      · simp only [Option.isSome_some, true_iff]
        exact ⟨hc.1, fun h => hc.2 h.symm⟩
      · intro _; exact ⟨rfl, rfl⟩
      · intro h; simp at h
    · rw [if_neg hc]
      refine ⟨?_, ?_, ?_⟩
      · simp only [Option.isSome_none, Bool.false_eq_true, false_iff]
        exact fun h => hc ⟨h.1, fun e => h.2 e.symm⟩
      · intro h; simp at h
      · intro _; rfl
  refine ⟨key s, ?_⟩
  have h := key (checkEncoder s p)
  rw [checkEncoder_reportBuffer] at h
  exact h

/-- C3 at a concrete input: from the initial state, a falling edge on phase A
with phase B high and the driver ready transmits `[1, VOLUMEUP, 0]`. -/
theorem report_transmitted_iff_ready_and_changed_witness :
    (mainLoopIteration State.init ⟨false, true, true⟩ true).2.isSome = true ∧
    (mainLoopIteration State.init ⟨false, true, true⟩ true).1.reportBuffer
        = ⟨1, VOLUMEUP, 0⟩ ∧
    (mainLoopIteration State.init ⟨false, true, true⟩ true).2 = some [1, VOLUMEUP, 0] :=
  ⟨by decide,
    (report_transmitted_iff_ready_and_changed State.init ⟨false, true, true⟩ true).2.2.1
      (by decide)⟩

/-! ## Oscillator calibration (C4, C5, C6) -/

/-- C4 fails on the code: when every measured frame length is below the target
the binary search ends with `trialValue = 255`, the bound `trialValue + 1` of
the second loop is 256, which the 8-bit `OSCCAL` never exceeds, and
`calibrateOscillator` does not return, whatever the fuel. -/
theorem calibrateOscillator_never_returns_when_short :
    ∀ fuel : Nat, calibrateOscillator alwaysShort fuel = none := by
  intro fuel
  apply calibrateOscillator_none_of_high_trial
  intro r hr
  have hr8 := binarySearchLoop_fuel_mono alwaysShort 8 fuel 128 0 [] r hr
  obtain ⟨r', hr', _, _, _, h4⟩ :=
    binarySearchLoop_spec alwaysShort (fun _ _ => by simp [alwaysShort])
      7 (fuel + 8) 0 [] (by omega) (by norm_num)
  rw [show (2 : Nat) ^ 7 = 128 by norm_num, hr8] at hr'
  obtain rfl := Option.some.inj hr'
  have hhigh := (h4 (fun _ _ _ _ => le_refl _) (fun t h1 h2 => by omega)
    (fun t h1 h2 => by norm_num at h1; omega)).2
  by_contra hlt
  have := hhigh (r.trialValue + 1) (le_refl _) (by omega)
  rw [targetValue_eq] at this
  simp [alwaysShort] at this

/-- C6 as stated fails, in two ways.  The constant response equal to the
target is non-decreasing, the binary search on it ends with `trialValue = 0`,
and yet trim 255 has a frame length that does not exceed the target.  The
response that is 2000 up to trim 100 and 40000 above is non-decreasing, every
measurement of 40000 reads negative in the 16-bit `int x`, the search ends with
`trialValue = 255`, and the frame length at trim 255 exceeds the target. -/
theorem binary_search_ignores_on_target :
    ((∀ a b, a ≤ b → b ≤ 255 → alwaysOnTarget a ≤ alwaysOnTarget b) ∧
      (binarySearchLoop alwaysOnTarget 8 128 0 []).map SearchResult.trialValue = some 0 ∧
      alwaysOnTarget 255 ≤ targetValue) ∧
    ((∀ a b, a ≤ b → b ≤ 255 → wideResponse a ≤ wideResponse b) ∧
      (binarySearchLoop wideResponse 8 128 0 []).map SearchResult.trialValue = some 255 ∧
      ¬ (wideResponse 255 ≤ targetValue) ∧ wideResponse 100 ≤ targetValue) :=
  ⟨⟨fun _ _ _ _ => le_refl _, by decide, by decide⟩,
    ⟨fun a b hab _ => by unfold wideResponse; split_ifs <;> omega,
      by decide, by decide, by decide⟩⟩

/-- C6, amended: for every non-decreasing frame-length response `f` over the
trims 0..255 whose values fit the 16-bit `int` in which the code stores them
(-32768..32767), the binary-search phase returns (eight units of fuel suffice)
and its final `trialValue` is the largest trim in 0..255 whose frame length is
strictly below the target, if there is such a trim, and 0 if there is none. -/
theorem binary_search_largest_below (f : Nat → Int)
    (hmono : ∀ a b, a ≤ b → b ≤ 255 → f a ≤ f b)
    (hrange : ∀ t, t ≤ 255 → -32768 ≤ f t ∧ f t ≤ 32767)
    (fuel : Nat) (hfuel : 8 ≤ fuel) :
    ∃ r, binarySearchLoop f fuel 128 0 [] = some r ∧ r.trialValue ≤ 255 ∧
      (∀ t, t ≤ 255 → f t < targetValue → t ≤ r.trialValue) ∧
      ((∃ t, t ≤ 255 ∧ f t < targetValue) → f r.trialValue < targetValue) ∧
      ((¬ ∃ t, t ≤ 255 ∧ f t < targetValue) → r.trialValue = 0) := by
  obtain ⟨r, hr, _, h2, _, h4⟩ :=
    binarySearchLoop_spec f hrange 7 fuel 0 [] (by omega) (by norm_num)
  rw [show (2 : Nat) ^ 7 = 128 by norm_num] at hr
  norm_num at h2
  obtain ⟨hlow, hhigh⟩ := h4 hmono (fun t h1 h2 => by omega)
    (fun t h1 h2 => by norm_num at h1; omega)
  refine ⟨r, hr, by omega, ?_, ?_, ?_⟩
  · intro t ht hlt
    by_contra hgt
    exact absurd hlt (not_lt.mpr (hhigh t (by omega) ht))
  · rintro ⟨t, ht, hlt⟩
    rcases Nat.eq_zero_or_pos r.trialValue with h0 | hpos
    · rw [h0]
      exact lt_of_le_of_lt (hmono 0 t (Nat.zero_le _) ht) hlt
    · exact hlow r.trialValue hpos (le_refl _)
  · intro hnone
    by_contra hne
    exact hnone ⟨r.trialValue, by omega, hlow r.trialValue (by omega) (le_refl _)⟩

/-- C6 at a concrete input: for the response that is 5 up to trim 101 and 2366
above, the binary search ends with `trialValue = 101`. -/
theorem binary_search_largest_below_witness :
    (∀ a b, a ≤ b → b ≤ 255 → stepResponse a ≤ stepResponse b) ∧
    (∀ t, t ≤ 255 → -32768 ≤ stepResponse t ∧ stepResponse t ≤ 32767) ∧
    ∃ r, binarySearchLoop stepResponse 8 128 0 [] = some r ∧ r.trialValue ≤ 255 ∧
      (∀ t, t ≤ 255 → stepResponse t < targetValue → t ≤ r.trialValue) ∧
      ((∃ t, t ≤ 255 ∧ stepResponse t < targetValue) → stepResponse r.trialValue < targetValue) ∧
      ((¬ ∃ t, t ≤ 255 ∧ stepResponse t < targetValue) → r.trialValue = 0) :=
  ⟨fun a b hab _ => by unfold stepResponse; split_ifs <;> omega,
    fun t _ => by unfold stepResponse; split_ifs <;> omega,
    binary_search_largest_below stepResponse
      (fun a b hab _ => by unfold stepResponse; split_ifs <;> omega)
      (fun t _ => by unfold stepResponse; split_ifs <;> omega) 8 (le_refl 8)⟩

/-- C5 fails on the code: on the response that is 5 up to trim 101 and 2366
above, the binary search ends at 101 with `x = 5`, the three neighbours 100,
101, 102 are measured, and because `optimumDev` starts from the raw frame
length `x = 5` instead of a deviation none of them is kept: `OSCCAL` is left at
101; the response is non-decreasing, and the deviation 2351 of trim 101 exceeds
the deviation 10 of trim 102. -/
theorem calibration_keeps_worse_trim :
    binarySearchLoop stepResponse 8 128 0 []
      = some ⟨101, 5, [128, 64, 96, 112, 104, 100, 102, 101]⟩ ∧
    calibrateOscillator stepResponse 8
      = some ⟨101, [128, 64, 96, 112, 104, 100, 102, 101, 100, 101, 102]⟩ ∧
    (∀ a b, a ≤ b → b ≤ 255 → stepResponse a ≤ stepResponse b) ∧
    ¬ (|stepResponse 101 - targetValue| ≤ |stepResponse 102 - targetValue|) := by
  refine ⟨by decide, by decide, ?_, ?_⟩
  · intro a b hab _
    unfold stepResponse
    split_ifs <;> omega
  rw [targetValue_eq]
  norm_num [stepResponse]

/-! ## Control requests (C14, C15) -/

/-- C14: for every value `v` and every prior state, a class-type `SET_IDLE`
request whose `wValue` high byte is `v`, followed by a class-type `GET_IDLE`
request, makes `usbFunctionSetup` return 1 with `usbMsgPtr` pointing at
`idleRate`, which holds `v`; the HID request codes of the header are taken to
be pairwise different. -/
theorem idle_rate_round_trip (c : UsbConsts) (hc : c.distinct) (s : State)
    (rqSet rqGet : SetupPacket) (v : Nat)
    (hSetClass : rqSet.isClass c) (hSet : rqSet.bRequest = c.USBRQ_HID_SET_IDLE)
    (hv : rqSet.wValue1 = v)
    (hGetClass : rqGet.isClass c) (hGet : rqGet.bRequest = c.USBRQ_HID_GET_IDLE) :
    (usbFunctionSetup c (usbFunctionSetup c s rqSet).1 rqGet).2 = 1 ∧
    (usbFunctionSetup c (usbFunctionSetup c s rqSet).1 rqGet).1.usbMsgPtr = MsgPtr.idleRate ∧
    (usbFunctionSetup c (usbFunctionSetup c s rqSet).1 rqGet).1.idleRate = v ∧
    usbMsgBytes (usbFunctionSetup c (usbFunctionSetup c s rqSet).1 rqGet).1
      (usbFunctionSetup c (usbFunctionSetup c s rqSet).1 rqGet).2 = [v] := by
  obtain ⟨h1, h2, h3⟩ := hc
  unfold SetupPacket.isClass at hSetClass hGetClass
  have e1 : usbFunctionSetup c s rqSet
      = ({ s with usbMsgPtr := MsgPtr.reportBuffer, idleRate := rqSet.wValue1 }, 0) := by
    unfold usbFunctionSetup
    rw [if_pos hSetClass, hSet, if_neg (Ne.symm h2), if_neg (Ne.symm h3), if_pos rfl]
  have e2 : ∀ u : State, usbFunctionSetup c u rqGet
      = ({ u with usbMsgPtr := MsgPtr.idleRate }, 1) := by
    intro u
    unfold usbFunctionSetup
    rw [if_pos hGetClass, hGet, if_neg (Ne.symm h1), if_pos rfl]
  rw [e1, e2, hv]
  exact ⟨rfl, rfl, rfl, rfl⟩

/-- C14 at a concrete input: with the values of the USB and HID
specifications, setting the idle rate to 7 and reading it back from the initial
state returns the one byte 7. -/
theorem idle_rate_round_trip_witness :
    usbdrvConsts.distinct ∧ setIdleSeven.isClass usbdrvConsts ∧ getIdle.isClass usbdrvConsts ∧
    usbMsgBytes (usbFunctionSetup usbdrvConsts
        (usbFunctionSetup usbdrvConsts State.init setIdleSeven).1 getIdle).1
      (usbFunctionSetup usbdrvConsts
        (usbFunctionSetup usbdrvConsts State.init setIdleSeven).1 getIdle).2 = [7] :=
  ⟨by decide, by decide, by decide,
    (idle_rate_round_trip usbdrvConsts (by decide) State.init setIdleSeven getIdle 7
      (by decide) rfl rfl (by decide) rfl).2.2.2⟩

/-- C15: for every 8-byte setup packet and every state, `usbFunctionSetup`
returns 3 with `usbMsgPtr` pointing at the report buffer exactly when the
request type is class and `bRequest` is `GET_REPORT`, returns 1 with `usbMsgPtr`
pointing at `idleRate` exactly when it is class `GET_IDLE`, returns 0 in every
other case, and leaves `reportBuffer` unchanged in every case; the request
codes `GET_REPORT` and `GET_IDLE` of the header are taken to be different. -/
theorem usbFunctionSetup_answers (c : UsbConsts)
    (hc : c.USBRQ_HID_GET_REPORT ≠ c.USBRQ_HID_GET_IDLE) (s : State) (rq : SetupPacket) :
    (((usbFunctionSetup c s rq).2 = 3 ∧
        (usbFunctionSetup c s rq).1.usbMsgPtr = MsgPtr.reportBuffer) ↔
      (rq.isClass c ∧ rq.bRequest = c.USBRQ_HID_GET_REPORT)) ∧
    (((usbFunctionSetup c s rq).2 = 1 ∧
        (usbFunctionSetup c s rq).1.usbMsgPtr = MsgPtr.idleRate) ↔
      (rq.isClass c ∧ rq.bRequest = c.USBRQ_HID_GET_IDLE)) ∧
    (¬ (rq.isClass c ∧ rq.bRequest = c.USBRQ_HID_GET_REPORT) →
      ¬ (rq.isClass c ∧ rq.bRequest = c.USBRQ_HID_GET_IDLE) →
      (usbFunctionSetup c s rq).2 = 0) ∧
    (usbFunctionSetup c s rq).1.reportBuffer = s.reportBuffer := by
  unfold usbFunctionSetup SetupPacket.isClass
  by_cases hcl : rq.bmRequestType &&& c.USBRQ_TYPE_MASK = c.USBRQ_TYPE_CLASS
  · rw [if_pos hcl]
    by_cases h1 : rq.bRequest = c.USBRQ_HID_GET_REPORT
    · have h2 : rq.bRequest ≠ c.USBRQ_HID_GET_IDLE := fun h => hc (h1.symm.trans h)
      rw [if_pos h1]
      refine ⟨?_, ?_, ?_, rfl⟩ <;> simp <;> tauto
    · rw [if_neg h1]
      by_cases h2 : rq.bRequest = c.USBRQ_HID_GET_IDLE
      · rw [if_pos h2]
        refine ⟨?_, ?_, ?_, rfl⟩ <;> simp <;> tauto
      · rw [if_neg h2]
        by_cases h3 : rq.bRequest = c.USBRQ_HID_SET_IDLE
        · rw [if_pos h3]
          refine ⟨?_, ?_, ?_, rfl⟩ <;> simp <;> tauto
        · rw [if_neg h3]
          refine ⟨?_, ?_, ?_, rfl⟩ <;> simp <;> tauto
  · rw [if_neg hcl]
    refine ⟨?_, ?_, ?_, rfl⟩ <;> simp <;> tauto

/-- C15 at a concrete input: with the values of the USB and HID
specifications, a class `GET_REPORT` request from the initial state returns 3
and the driver sends the report buffer `[1, 0, 0]`. -/
theorem usbFunctionSetup_answers_witness :
    (usbFunctionSetup usbdrvConsts State.init getReport).2 = 3 ∧
    (usbFunctionSetup usbdrvConsts State.init getReport).1.usbMsgPtr = MsgPtr.reportBuffer ∧
    usbMsgBytes (usbFunctionSetup usbdrvConsts State.init getReport).1 3 = [1, 0, 0] :=
  ⟨((usbFunctionSetup_answers usbdrvConsts (by decide) State.init getReport).1.mpr
      ⟨by decide, rfl⟩).1,
    by decide, by decide⟩

/-! ## Invariants of the debounce state (C16, C17) -/

/-- C16: in every state reached from the initial state by a sequence of
`checkEncoder` calls, `debounceCount` is at most `DEBOUNCE_THRESHOLD = 50` (so
the 8-bit counter neither overflows nor underflows), `isSwitchPressed` is 0 or
1, `isSwitchPressed = 1` implies `debounceCount ≥ 1`, and `debounceCount = 50`
implies `isSwitchPressed = 1`. -/
theorem debounce_state_invariant (ps : List PinSample) :
    0 ≤ (runEncoder State.init ps).debounceCount ∧
    (runEncoder State.init ps).debounceCount ≤ DEBOUNCE_THRESHOLD ∧
    DEBOUNCE_THRESHOLD = 50 ∧
    (runEncoder State.init ps).debounceCount < 256 ∧
    ((runEncoder State.init ps).isSwitchPressed = 0 ∨
      (runEncoder State.init ps).isSwitchPressed = 1) ∧
    ((runEncoder State.init ps).isSwitchPressed = 1 →
      1 ≤ (runEncoder State.init ps).debounceCount) ∧
    ((runEncoder State.init ps).debounceCount = 50 →
      (runEncoder State.init ps).isSwitchPressed = 1) := by
  obtain ⟨h1, h2, h3, h4⟩ := runEncoder_inv ps State.init DebounceInv_init
  have h50 : DEBOUNCE_THRESHOLD = 50 := rfl
  exact ⟨Nat.zero_le _, h1, h50, by omega, h2, h3, h4⟩

/-- C16 at a concrete input: after fifty pressed, fifty released and fifty
pressed samples the counter is 50 and the latch is set. -/
theorem debounce_state_invariant_witness :
    (runEncoder State.init twoPresses).debounceCount = 50 ∧
    (runEncoder State.init twoPresses).isSwitchPressed = 1 :=
  ⟨by decide, (debounce_state_invariant twoPresses).2.2.2.2.2.2 (by decide)⟩

/-- C17: for every state and pin sample in which a falling edge on phase A
(`lastA` high, phase A sampled low) coincides with the debounce counter
reaching `DEBOUNCE_THRESHOLD` on a pressed sample while `isSwitchPressed = 0`,
the rotation event of that sample is `VOLUMEUP` or `VOLUMEDOWN`, yet
`checkEncoder` leaves `VOLUMEMUTE` in `currentKey`, neither `VOLUMEUP` nor
`VOLUMEDOWN`, and sets `isSwitchPressed`. -/
theorem mute_overwrites_rotation (s : State) (p : PinSample)
    (hlast : s.lastA ≠ 0) (hA : p.encA = false) (hsw : p.encSW = false)
    (hreach : (checkEncoder s p).debounceCount = DEBOUNCE_THRESHOLD)
    (hisp : s.isSwitchPressed = 0) :
    (rotationEvent (decide (s.lastA ≠ 0)) p = VOLUMEUP ∨
      rotationEvent (decide (s.lastA ≠ 0)) p = VOLUMEDOWN) ∧
    (checkEncoder s p).currentKey = VOLUMEMUTE ∧
    (checkEncoder s p).currentKey ≠ VOLUMEUP ∧
    (checkEncoder s p).currentKey ≠ VOLUMEDOWN ∧
    (checkEncoder s p).isSwitchPressed = 1 := by
  have hf : muteFires s p := by
    rw [checkEncoder_pressed_debounceCount s p hsw] at hreach
    exact ⟨hsw, hisp, hreach⟩
  have hk := (checkEncoder_currentKey_mute_iff s p).mpr hf
  refine ⟨?_, hk, ?_, ?_, ?_⟩
  · unfold rotationEvent
    rw [if_pos ⟨by simpa using hlast, hA⟩]
    cases p.encB <;> simp
  · rw [hk]; decide
  · rw [hk]; decide
  · rw [checkEncoder_pressed_isSwitchPressed s p hsw, if_pos hf]

/-- C17 at a concrete input: `lastA = 1`, `debounceCount = 49`, latch clear,
and a sample with phase A low, phase B high and the switch pressed. -/
theorem mute_overwrites_rotation_witness :
    edgeWithMuteState.lastA ≠ 0 ∧ edgeWithMuteSample.encA = false ∧
    (checkEncoder edgeWithMuteState edgeWithMuteSample).currentKey = VOLUMEMUTE :=
  ⟨by decide, rfl,
    (mute_overwrites_rotation edgeWithMuteState edgeWithMuteSample (by decide) rfl rfl
      (by decide) rfl).2.1⟩

/-! ## Reports on the wire (C11, C12, C13, C19) -/

/-- C11: for every sequence of pin samples and `usbInterruptIsReady()` answers
run through the main loop from the initial state (`reportBuffer = [1,0,0]`),
the usage codes of the transmitted reports form a chain starting from the
initial value 0 in which every code differs from the one before it: the first
transmitted code differs from 0 and no code is transmitted twice in a row. -/
theorem transmitted_codes_alternate (inputs : List (PinSample × Bool)) :
    List.Chain (fun a b => a ≠ b) 0
      (transmittedCodes (mainLoopTrace State.init inputs)) :=
  transmittedCodes_chain inputs State.init

/-- C12: in every state reached from the initial state by any interleaving of
main-loop iterations and `usbFunctionSetup` control requests, `reportBuffer[0]`
is 1, `reportBuffer[2]` is 0 and `reportBuffer[1]` is one of `0x00`, `0xE2`,
`0xE9`, `0xEA`; every report handed to `usbSetInterrupt` along the way is the
three bytes `[1, code, 0]`, whose 16-bit usage code `code + 256 * 0` is one of
`0x0000`, `0x00E2`, `0x00E9`, `0x00EA`. -/
theorem report_buffer_invariant (c : UsbConsts) (steps : List Step) :
    ((runSteps c State.init steps).reportBuffer.byte0 = 1 ∧
      (runSteps c State.init steps).reportBuffer.byte2 = 0 ∧
      ((runSteps c State.init steps).reportBuffer.byte1 = 0x00 ∨
        (runSteps c State.init steps).reportBuffer.byte1 = 0xE2 ∨
        (runSteps c State.init steps).reportBuffer.byte1 = 0xE9 ∨
        (runSteps c State.init steps).reportBuffer.byte1 = 0xEA)) ∧
    (∀ r ∈ stepTrace c State.init steps, ∀ bytes, r.2 = some bytes →
      ∃ code, bytes = [1, code, 0] ∧
        (code + 256 * 0 = 0x0000 ∨ code + 256 * 0 = 0x00E2 ∨
          code + 256 * 0 = 0x00E9 ∨ code + 256 * 0 = 0x00EA)) := by
  obtain ⟨h1, h2⟩ := runSteps_reportInv c steps State.init ReportInv_init
  refine ⟨h1, ?_⟩
  intro r hr bytes hb
  obtain ⟨code, hcode, hmem⟩ := (h2 r hr).2 bytes hb
  exact ⟨code, hcode, hmem⟩

/-- C13: there are input sequences whose event is never transmitted.  From the
initial state, an iteration with a falling edge on phase A, phase B high and
the driver not ready, followed by any iterations with the switch released, no
further falling edge and the driver ready, produces `VOLUMEUP` in the first
iteration and no event afterwards, hands no report at all to `usbSetInterrupt`,
and leaves `reportBuffer = [1, 0, 0]`. -/
theorem transient_event_lost (tail : List PinSample)
    (hrel : ∀ p ∈ tail, p.encSW = true) (hno : noFallingEdge false tail) :
    (mainLoopTrace State.init ((edgeSample, false) :: tail.map (fun p => (p, true)))).map
        (fun r => r.1.currentKey) = VOLUMEUP :: List.replicate tail.length 0 ∧
    (∀ r ∈ mainLoopTrace State.init ((edgeSample, false) :: tail.map (fun p => (p, true))),
        r.2 = none) ∧
    (runMainLoop State.init ((edgeSample, false) :: tail.map (fun p => (p, true)))).reportBuffer
        = ⟨1, 0, 0⟩ := by
  have hfirst : mainLoopIteration State.init edgeSample false
      = (checkEncoder State.init edgeSample, none) := by decide
  have hkey : (checkEncoder State.init edgeSample).currentKey = VOLUMEUP := by decide
  obtain ⟨h1, h2⟩ := mainLoopTrace_quiet tail (checkEncoder State.init edgeSample) false
    (by decide) (by decide) hrel hno
  rw [mainLoopTrace_cons, runMainLoop_cons, hfirst]
  dsimp only
  refine ⟨?_, ?_, ?_⟩
  · rw [List.map_cons, hkey]
    congr 1
    apply List.eq_replicate_iff.mpr
    refine ⟨by simp [mainLoopTrace_length], ?_⟩
    intro k hk
    obtain ⟨r, hr, rfl⟩ := List.mem_map.mp hk
    exact (h1 r hr).1
  · intro r hr
    rcases List.mem_cons.mp hr with rfl | hr
    · rfl
    · exact (h1 r hr).2.1
  · rw [h2]; decide

/-- C13 at a concrete input: the falling edge with the driver busy, then five
iterations with phase A still low and the driver ready. -/
theorem transient_event_lost_witness :
    (mainLoopTrace State.init ((edgeSample, false) :: quietTail.map (fun p => (p, true)))).map
        (fun r => r.1.currentKey) = [VOLUMEUP, 0, 0, 0, 0, 0] ∧
    (∀ r ∈ mainLoopTrace State.init ((edgeSample, false) :: quietTail.map (fun p => (p, true))),
        r.2 = none) ∧
    (runMainLoop State.init ((edgeSample, false) :: quietTail.map (fun p => (p, true)))).reportBuffer
        = ⟨1, 0, 0⟩ :=
  transient_event_lost quietTail (by decide)
    (by simp [quietTail, edgeSample, List.replicate, noFallingEdge])

/-- C19: for every sequence of pin samples run through the main loop from the
initial state with the driver ready at every iteration, every iteration whose
`checkEncoder` call leaves a non-zero event transmits, in that same iteration,
the report `[1, event, 0]`; and a non-zero event never equals the event of the
iteration before it. -/
theorem every_event_transmitted_when_ready (ps : List PinSample) :
    (∀ (i : Nat) (r : State × Option (List Nat)),
      (mainLoopTrace State.init (ps.map (fun p => (p, true))))[i]? = some r →
      r.1.currentKey ≠ 0 → r.2 = some [1, r.1.currentKey, 0]) ∧
    (∀ (i : Nat) (r r' : State × Option (List Nat)),
      (mainLoopTrace State.init (ps.map (fun p => (p, true))))[i]? = some r →
      (mainLoopTrace State.init (ps.map (fun p => (p, true))))[i + 1]? = some r' →
      r'.1.currentKey ≠ 0 → r'.1.currentKey ≠ r.1.currentKey) := by
  obtain ⟨h0, hs⟩ := mainLoopTrace_always_ready ps State.init SyncInv_init
  refine ⟨?_, fun i r r' hr hr' hk => (hs i r r' hr hr' hk).2⟩
  intro i r hr hk
  cases i with
  | zero => exact (h0 r hr hk).1
  | succ i =>
    have hlt : i < (mainLoopTrace State.init (ps.map (fun p => (p, true)))).length := by
      have := (List.getElem?_eq_some.mp hr).1
      omega
    exact (hs i _ r (List.getElem?_eq_getElem hlt) hr hk).1

/-- C12 at a concrete input: a falling edge with the driver ready, a
`GET_REPORT` request and an idle iteration; the first step transmits
`[1, 0xE9, 0]`. -/
theorem report_buffer_invariant_witness :
    (step usbdrvConsts State.init (Step.loop edgeSample true)).2 = some [1, 0xE9, 0] ∧
    ∃ code, [1, 0xE9, 0] = [1, code, 0] ∧
      (code + 256 * 0 = 0x0000 ∨ code + 256 * 0 = 0x00E2 ∨
        code + 256 * 0 = 0x00E9 ∨ code + 256 * 0 = 0x00EA) :=
  ⟨by decide,
    (report_buffer_invariant usbdrvConsts mixedSteps).2
      (step usbdrvConsts State.init (Step.loop edgeSample true)) (by decide)
      [1, 0xE9, 0] (by decide)⟩

/-- C19 at a concrete input: a falling edge with phase B high in the first
iteration is transmitted in that iteration as `[1, VOLUMEUP, 0]`. -/
theorem every_event_transmitted_when_ready_witness :
    (mainLoopIteration State.init edgeSample true).1.currentKey = VOLUMEUP ∧
    (mainLoopIteration State.init edgeSample true).2
      = some [1, (mainLoopIteration State.init edgeSample true).1.currentKey, 0] :=
  ⟨by decide,
    (every_event_transmitted_when_ready [edgeSample, releasedSample]).1 0
      (mainLoopIteration State.init edgeSample true) rfl (by decide)⟩

/-! ## The binary search, step by step (C18) -/

/-- C18 as stated fails: the response that is 2000 up to trim 100 and 40000
above is non-decreasing, every measurement of 40000 reads negative in the
16-bit `int x`, and the binary search ends with `trialValue = 255`, although
the frame length at trim 255 is not below the target. -/
theorem binary_search_accepts_wrapped_length :
    (∀ a b, a ≤ b → b ≤ 255 → wideResponse a ≤ wideResponse b) ∧
    (binarySearchLoop wideResponse 8 128 0 []).map SearchResult.trialValue = some 255 ∧
    ¬ (wideResponse 255 < targetValue ↔ 255 ≤ 255) :=
  ⟨fun a b hab _ => by unfold wideResponse; split_ifs <;> omega, by decide, by decide⟩

/-- C18, amended: for every non-decreasing frame-length response `f` over the
trims 0..255 whose values fit the 16-bit `int` in which the code stores them
(-32768..32767), the binary-search phase returns (eight units of fuel suffice)
after exactly eight measurements, taken with the steps 128, 64, 32, 16, 8, 4,
2, 1 as the specification words it, and ends with `trialValue = r` such that
for every trim `t` in 1..255, `f t < targetValue` if and only if `t ≤ r`;
`r = 0` when no trim in 1..255 measures strictly below the target. -/
theorem binary_search_eight_steps (f : Nat → Int)
    (hmono : ∀ a b, a ≤ b → b ≤ 255 → f a ≤ f b)
    (hrange : ∀ t, t ≤ 255 → -32768 ≤ f t ∧ f t ≤ 32767)
    (fuel : Nat) (hfuel : 8 ≤ fuel) :
    ∃ r, binarySearchLoop f fuel 128 0 [] = some r ∧
      (r.trialValue, r.measured) = searchOverSteps f [128, 64, 32, 16, 8, 4, 2, 1] ∧
      r.measured.length = 8 ∧
      (∀ t, 1 ≤ t → t ≤ 255 → (f t < targetValue ↔ t ≤ r.trialValue)) ∧
      ((¬ ∃ t, 1 ≤ t ∧ t ≤ 255 ∧ f t < targetValue) → r.trialValue = 0) := by
  obtain ⟨r, hr, _, hb, hlen, h4⟩ :=
    binarySearchLoop_spec f hrange 7 fuel 0 [] (by omega) (by norm_num)
  obtain ⟨r', hr', hfold⟩ :=
    binarySearchLoop_fold f hrange 7 fuel 0 [] (by omega) (by norm_num)
  rw [hr] at hr'
  obtain rfl := Option.some.inj hr'
  rw [show (2 : Nat) ^ 7 = 128 by norm_num] at hr
  norm_num at hb
  obtain ⟨hlow, hhigh⟩ := h4 hmono (fun t h1 h2 => by omega)
    (fun t h1 h2 => by norm_num at h1; omega)
  have hiff : ∀ t, 1 ≤ t → t ≤ 255 → (f t < targetValue ↔ t ≤ r.trialValue) := by
    intro t h1 h2
    constructor
    · intro hlt
      by_contra hgt
      exact absurd hlt (not_lt.mpr (hhigh t (by omega) h2))
    · intro hle
      exact hlow t h1 hle
  refine ⟨r, hr, hfold, by simpa using hlen, hiff, ?_⟩
  intro hnone
  by_contra hne
  exact hnone ⟨r.trialValue, by omega, by omega, hlow r.trialValue (by omega) (le_refl _)⟩

/-- C18 at a concrete input: for the response that is 5 up to trim 101 and 2366
above, the eight measurements are taken at 128, 64, 96, 112, 104, 100, 102, 101
and the search ends with `trialValue = 101`. -/
theorem binary_search_eight_steps_witness :
    searchOverSteps stepResponse [128, 64, 32, 16, 8, 4, 2, 1]
      = (101, [128, 64, 96, 112, 104, 100, 102, 101]) ∧
    (∀ t, t ≤ 255 → -32768 ≤ stepResponse t ∧ stepResponse t ≤ 32767) ∧
    ∃ r, binarySearchLoop stepResponse 8 128 0 [] = some r ∧
      (r.trialValue, r.measured) = searchOverSteps stepResponse [128, 64, 32, 16, 8, 4, 2, 1] ∧
      r.measured.length = 8 ∧
      (∀ t, 1 ≤ t → t ≤ 255 → (stepResponse t < targetValue ↔ t ≤ r.trialValue)) ∧
      ((¬ ∃ t, 1 ≤ t ∧ t ≤ 255 ∧ stepResponse t < targetValue) → r.trialValue = 0) :=
  ⟨by decide,
    fun t _ => by unfold stepResponse; split_ifs <;> omega,
    binary_search_eight_steps stepResponse
      (fun a b hab _ => by unfold stepResponse; split_ifs <;> omega)
      (fun t _ => by unfold stepResponse; split_ifs <;> omega) 8 (le_refl 8)⟩

/-! ## Distance between two Mutes (C20) -/

/-- C20: for every sequence of pin samples run through `checkEncoder` from the
initial state, any two distinct calls that leave `VOLUMEMUTE` in `currentKey`
are at least `2 * DEBOUNCE_THRESHOLD = 100` calls apart. -/
theorem mutes_hundred_apart (ps : List PinSample) (i j : Nat) (hij : i < j)
    (hi : (encoderEvents State.init ps)[i]? = some VOLUMEMUTE)
    (hj : (encoderEvents State.init ps)[j]? = some VOLUMEMUTE) :
    i + 2 * DEBOUNCE_THRESHOLD ≤ j ∧ 2 * DEBOUNCE_THRESHOLD = 100 :=
  ⟨mute_pair_distance ps State.init (by decide) i j hij hi hj, rfl⟩

/-- C20 at a concrete input: fifty pressed, fifty released and fifty pressed
samples fire Mute at indices 49 and 149, exactly 100 apart. -/
theorem mutes_hundred_apart_witness :
    (encoderEvents State.init twoPresses)[49]? = some VOLUMEMUTE ∧
    (encoderEvents State.init twoPresses)[149]? = some VOLUMEMUTE ∧
    49 + 2 * DEBOUNCE_THRESHOLD ≤ 149 :=
  ⟨by decide, by decide,
    (mutes_hundred_apart twoPresses 49 149 (by decide) (by decide) (by decide)).1⟩

end Knob
